import Mathlib

/-!
# Echo-message handler of OpenVPN-GUI (`echo.c`)

A shallow embedding of the protocol core of `echo.c`: the pending message of a
connection, its fingerprint, the history of displayed fingerprints, and the
directive dispatcher `echo_msg_process`.

Conventions of the embedding.

* A C string (`char *`, `wchar_t *`) is the list of its characters without the
  terminator; a pointer that may be `NULL` is an `Option`.
* A `time_t` is an `Int` in the range of a signed 64-bit integer. The mute interval
  `o.popup_mute_interval` is a `DWORD` (declared in `options.h`, which is not part
  of the sources at hand), a field of `Sys`: `o.popup_mute_interval*3600` is an
  unsigned 32-bit product (`mute_seconds`), and its sum with a timestamp is formed
  in the 64-bit signed type and wraps around (`wrap_time`).
* When `Widen` fails on the title, `echo_msg_display` stores the address of a
  string literal in `c->echo_msg.title`, and the `echo_msg_clear` that follows
  passes it to `free`: undefined behaviour in C. The embedding has no address
  spaces; `frees_literal` tells when a call does this, and the value of
  `echo_msg_process` is then the state the reset leaves if `free` returns.
* Everything the file calls but does not define (`url_decode`, `Widen`, the
  digest primitive, the global window handle, the flag bit) is a field of `Sys`.
  Outcomes of resource acquisition that may differ from call to call (`md_init`,
  `realloc`, `malloc`) are fields of `Fate`.
* Calls to the presentation surfaces and to the log are recorded, in order, as a
  list of `Event`s returned next to the new state.
-/

namespace EchoMsg

/-! ## Data model -/

/-- A wide character (`wchar_t`, a 16-bit code unit on the target platform). -/
abbrev WCHAR := Nat

/-- A window handle; `0` is the null handle. -/
abbrev HWND := Nat

/-- Modelled from the spec: the type of `BYTE digest[HASHLEN]` (`echo.h` is not part
of the sources): "a 160-bit value". Comparison by `memcmp` over `HASHLEN` bytes is
equality of the values. -/
abbrev Digest := Fin (2 ^ 160)

/-- The fingerprint `struct echo_msg_fp`: digest and timestamp. -/
structure echo_msg_fp where
  digest : Digest
  timestamp : Int
deriving DecidableEq, Repr

/-- The pending message `struct echo_msg`; `history` is the linked list
`struct echo_msg_history *`, head first. -/
structure echo_msg where
  fp : echo_msg_fp
  title : Option (List WCHAR)
  text : Option (List WCHAR)
  txtlen : Nat
  history : List echo_msg_fp
deriving DecidableEq, Repr

/-- The part of `connection_t` the handler reads and writes. -/
structure connection_t where
  flags : Nat
  echo_msg : echo_msg
deriving DecidableEq, Repr

/-- The collaborators of the handler that the file does not define. -/
structure Sys where
  /-- Text decoder `url_decode`: `none` is the `NULL` result. -/
  url_decode : List Char → Option (List Char)
  /-- Text widening `Widen`: `none` is the `NULL` result. -/
  Widen : List Char → Option (List WCHAR)
  /-- The digest `CALG_SHA1` of a byte stream. -/
  sha1 : List Nat → Digest
  /-- The value of `o.popup_mute_interval` (a `DWORD`), in hours. -/
  popup_mute_interval : Nat
  /-- The bit `FLAG_DISABLE_ECHO_MSG` of `connection_t.flags`. -/
  FLAG_DISABLE_ECHO_MSG : Nat
  /-- The global `echo_msg_window`, as `echo_msg_init` left it. -/
  echo_msg_window : HWND

/-- Outcome of the resource acquisitions of one call. -/
structure Fate where
  /-- The call `md_init(&ctx, CALG_SHA1)` returns 0. -/
  md_init_ok : Bool
  /-- The call `realloc` in `echo_msg_append` returns a buffer. -/
  realloc_ok : Bool
  /-- The call `malloc` in `echo_msg_history_add` returns a node. -/
  malloc_ok : Bool
deriving DecidableEq, Repr

/-- Calls to the external surfaces, in the order they are made. -/
inductive Event where
  /-- The call `WriteStatusLog(c, pfx, msg, false)`; `arg` is the `%hs` argument the
  message was formatted with, if any. -/
  | WriteStatusLog (pfx : String) (msg : String) (arg : Option (List Char))
  /-- The call `MsgToEventLog(EVENTLOG_ERROR_TYPE, msg)`. -/
  | MsgToEventLog (msg : String)
  /-- The call `AddMessageBoxText(h, text, title, true)`: the window surface. -/
  | AddMessageBoxText (h : HWND) (text : Option (List WCHAR)) (title : Option (List WCHAR))
  /-- The call `ShowTrayBalloon(title, text)`: the notification surface. -/
  | ShowTrayBalloon (title : Option (List WCHAR)) (text : Option (List WCHAR))
deriving DecidableEq, Repr

/-- An event is a call to one of the two presentation surfaces. -/
def Event.isSurface : Event → Bool
  | .AddMessageBoxText _ _ _ => true
  | .ShowTrayBalloon _ _ => true
  | _ => false

/-- An event is a line written to the status log. -/
def Event.isLog : Event → Bool
  | .WriteStatusLog _ _ _ => true
  | _ => false

/-- The surface calls among a list of events. -/
def surface_calls (evs : List Event) : List Event := evs.filter Event.isSurface

/-- The log lines among a list of events. -/
def log_lines (evs : List Event) : List Event := evs.filter Event.isLog

/-! ## Constants and small helpers of the C file -/

def ECHO_MSG_WINDOW : Nat := 1

def ECHO_MSG_NOTIFY : Nat := 2

/-- The wide string literal with the characters of `s`. -/
def L (s : String) : List WCHAR := s.toList.map Char.toNat

/-- The line terminator appended by `msg`: the two code units CR, LF. -/
def CRLF : List WCHAR := [13, 10]

def wcslen (s : List WCHAR) : Nat := s.length

/-- The call `strbegins(str, begin)`: `strncmp(str, begin, strlen(begin)) == 0`. -/
def strbegins (str : List Char) (start : String) : Bool := start.toList.isPrefixOf str

/-- The call `streq(x, y)`: `strcmp(x, y) == 0`. -/
def streq (x : List Char) (y : String) : Bool := x == y.toList

/-- The bytes of `n` wide characters starting at `p` (`(BYTE*) p`, `n*sizeof(p[0])` bytes):
two bytes per code unit, low byte first. -/
def wbytes (p : List WCHAR) : List Nat := p.flatMap fun w => [w % 256, w / 256 % 256]

/-! ## The digest primitive

Modelled from the spec: `md_init`, `md_update`, `md_final` are not part of the sources.
The spec: "Computes a 160-bit cryptographic digest over the byte representation of
the current accumulated `text` concatenated with the byte representation of `title`";
"If the underlying digest primitive cannot be initialized, the fingerprint is left unset". -/

/-- Modelled from the spec: the digest context `md_ctx` holds the bytes fed so far. -/
structure md_ctx where
  data : List Nat

/-- Modelled from the spec: `md_init` yields a fresh context, or fails (`none`, a nonzero return). -/
def md_init (f : Fate) : Option md_ctx := if f.md_init_ok then some ⟨[]⟩ else none

/-- Modelled from the spec: `md_update` feeds bytes to the context. -/
def md_update (ctx : md_ctx) (bytes : List Nat) : md_ctx := ⟨ctx.data ++ bytes⟩

/-- Modelled from the spec: `md_final` returns the digest of all bytes fed. -/
def md_final (S : Sys) (ctx : md_ctx) : Digest := S.sha1 ctx.data

/-! ## The functions of `echo.c` -/

/-- `echo_msg_add_fp`: compute a digest of the message and add it to the msg struct.
The title is dereferenced by `wcslen`; the only caller sets it first. -/
def echo_msg_add_fp (S : Sys) (f : Fate) (msg : echo_msg) (timestamp : Int) : echo_msg :=
  let msg1 : echo_msg := { msg with fp := { msg.fp with timestamp := timestamp } }
  match md_init f with
  | none => msg1
  | some ctx =>
    let ctx1 := md_update ctx (wbytes ((msg1.text.getD []).take msg1.txtlen))
    let ctx2 := md_update ctx1 (wbytes ((msg1.title.getD []).take (wcslen (msg1.title.getD []))))
    { msg1 with fp := { msg1.fp with digest := md_final S ctx2 } }

/-- `echo_msg_recall`: find message with given digest in history. The returned pointer
is the position of the node in the list; `none` is `NULL`. -/
def echo_msg_recall (digest : Digest) : List echo_msg_fp → Option Nat
  | [] => none
  | h :: rest =>
    if h.digest = digest then some 0
    else (echo_msg_recall digest rest).map (· + 1)

/-- The assignment `hist->fp.timestamp = ts` through a pointer to the node at position `i`. -/
def store_timestamp : List echo_msg_fp → Nat → Int → List echo_msg_fp
  | [], _, _ => []
  | h :: rest, 0, ts => { h with timestamp := ts } :: rest
  | h :: rest, i + 1, ts => h :: store_timestamp rest i ts

/-- `echo_msg_history_add`: add an item to message history and return the head of the list. -/
def echo_msg_history_add (f : Fate) (head : List echo_msg_fp) (fp : echo_msg_fp) :
    List echo_msg_fp :=
  if f.malloc_ok then fp :: head else head

/-- `echo_msg_save`: save message in history, update if already present. -/
def echo_msg_save (f : Fate) (msg : echo_msg) : echo_msg :=
  match echo_msg_recall msg.fp.digest msg.history with
  | some i => { msg with history := store_timestamp msg.history i msg.fp.timestamp }
  | none => { msg with history := echo_msg_history_add f msg.history msg.fp }

/-- `echo_msg_persist`: not implemented in the source. -/
def echo_msg_persist (c : connection_t) : connection_t := c

/-- `echo_msg_load`: not implemented in the source. -/
def echo_msg_load (c : connection_t) : connection_t := c

/-- The value of `o.popup_mute_interval*3600`: the product of a `DWORD` and an `int`,
taken in unsigned 32-bit arithmetic. -/
def mute_seconds (S : Sys) : Nat := (S.popup_mute_interval * 3600) % 2 ^ 32

/-- A sum formed in `time_t`, a signed 64-bit type: the value wraps around into the range
from `-2^63` to `2^63 - 1`. -/
def wrap_time (x : Int) : Int := (x + 2 ^ 63) % 2 ^ 64 - 2 ^ 63

/-- `echo_msg_repeated`: return true if the message is same as recently shown. The sum
`hist->fp.timestamp + o.popup_mute_interval*3600` is a 64-bit signed sum of the stored
timestamp and the 32-bit unsigned product. -/
def echo_msg_repeated (S : Sys) (msg : echo_msg) : Bool :=
  match echo_msg_recall msg.fp.digest msg.history with
  | none => false
  | some i =>
    match msg.history[i]? with
    | none => false
    | some hist =>
      decide (wrap_time (hist.timestamp + (mute_seconds S : Int)) > msg.fp.timestamp)

/-- The log line written by `echo_msg_append` on either failure. -/
def append_oom : Event :=
  Event.WriteStatusLog "GUI> " "Error: out of memory while processing echo msg" none

/-- `echo_msg_append`: append a line of echo msg. The new buffer holds the first `txtlen`
characters of the old one followed by what `swprintf` writes at offset `txtlen`. -/
def echo_msg_append (S : Sys) (f : Fate) (c : connection_t) (_timestamp : Int)
    (msg : List Char) (addnl : Bool) : connection_t × List Event :=
  match S.Widen msg with
  | none => (c, [append_oom])
  | some wmsg =>
    let len0 := c.echo_msg.txtlen + wcslen wmsg + 1
    let eol : List WCHAR := if addnl then CRLF else L ""
    let len := if addnl then len0 + 2 else len0
    if f.realloc_ok then
      let s := (c.echo_msg.text.getD []).take c.echo_msg.txtlen ++ (wmsg ++ eol)
      ({ c with echo_msg := { c.echo_msg with text := some s, txtlen := len - 1 } }, [])
    else (c, [append_oom])

/-- `echo_msg_display`: called when echo msg-window or echo msg-notify is received. When
`Widen` fails the title is the string literal `L"Message from server"`, not a heap block;
the title of the model holds its characters, and `frees_literal` tells that the reset which
follows in `echo_msg_process` hands it to `free`. -/
def echo_msg_display (S : Sys) (f : Fate) (c : connection_t) (timestamp : Int)
    (title : List Char) (type : Nat) : connection_t × List Event :=
  let (c1, ev1) : connection_t × List Event :=
    match S.Widen title with
    | some wtitle => ({ c with echo_msg := { c.echo_msg with title := some wtitle } }, [])
    | none =>
      ({ c with echo_msg := { c.echo_msg with title := some (L "Message from server") } },
        [Event.WriteStatusLog "GUI> "
          "Error: out of memory converting echo message title to widechar" none])
  let c2 : connection_t := { c1 with echo_msg := echo_msg_add_fp S f c1.echo_msg timestamp }
  if c2.flags &&& S.FLAG_DISABLE_ECHO_MSG ≠ 0 ∨ echo_msg_repeated S c2.echo_msg = true then
    (c2, ev1)
  else
    let ev2 : List Event :=
      if type = ECHO_MSG_WINDOW then
        let h := S.echo_msg_window
        if h ≠ 0 then [Event.AddMessageBoxText h c2.echo_msg.text c2.echo_msg.title] else []
      else [Event.ShowTrayBalloon c2.echo_msg.title c2.echo_msg.text]
    ({ c2 with echo_msg := echo_msg_save f c2.echo_msg }, ev1 ++ ev2)

/-- `echo_msg_clear`: reset the pending message, and the history too when asked. The calls
`free(c->echo_msg.text)` and `free(c->echo_msg.title)` are defined for null and heap
pointers only; the value below is the state left when they return. -/
def echo_msg_clear (c : connection_t) (clear_history : Bool) : connection_t :=
  let c1 : connection_t :=
    { c with echo_msg := { c.echo_msg with fp := ⟨0, 0⟩, text := none, txtlen := 0, title := none } }
  if clear_history then
    let c2 := echo_msg_persist c1
    { c2 with echo_msg := ⟨⟨0, 0⟩, none, none, 0, []⟩ }
  else c1

/-- The warning written for a line that is no directive. -/
def unknown_directive (msg : List Char) : Event :=
  Event.WriteStatusLog "GUI> " "WARNING: Unknown ECHO directive '%hs' ignored." (some msg)

/-- `echo_msg_process`: decode one line and dispatch on the directive. -/
def echo_msg_process (S : Sys) (f : Fate) (c : connection_t) (timestamp : Int)
    (s : List Char) : connection_t × List Event :=
  match S.url_decode s with
  | none => (c, [Event.WriteStatusLog "GUI> " "Error in url_decode of echo message" none])
  | some msg =>
    if strbegins msg "msg " then
      echo_msg_append S f c timestamp (msg.drop 4) true
    else if streq msg "msg" then
      echo_msg_append S f c timestamp (msg.drop 3) true
    else if strbegins msg "msg-n " then
      echo_msg_append S f c timestamp (msg.drop 6) false
    else if strbegins msg "msg-window " then
      let r := echo_msg_display S f c timestamp (msg.drop 11) ECHO_MSG_WINDOW
      (echo_msg_clear r.1 false, r.2)
    else if strbegins msg "msg-notify " then
      let r := echo_msg_display S f c timestamp (msg.drop 11) ECHO_MSG_NOTIFY
      (echo_msg_clear r.1 false, r.2)
    else
      (c, [unknown_directive msg])

/-- The call of `echo_msg_process` on the raw line `s` passes a string literal to `free`:
the line reaches one of the two finalize branches and `Widen` fails on its title, so that
`echo_msg_display` stores the literal in `c->echo_msg.title` and `echo_msg_clear` frees it.
The C program has undefined behaviour from that point. -/
def frees_literal (S : Sys) (s : List Char) : Bool :=
  match S.url_decode s with
  | none => false
  | some msg =>
    if strbegins msg "msg " then false
    else if streq msg "msg" then false
    else if strbegins msg "msg-n " then false
    else if strbegins msg "msg-window " then (S.Widen (msg.drop 11)).isNone
    else if strbegins msg "msg-notify " then (S.Widen (msg.drop 11)).isNone
    else false

/-- The outcome of a call of `echo_msg_process` as far as C defines it: `none` when the call
passes a string literal to `free`, the result of the embedding otherwise. -/
def defined_outcome (S : Sys) (f : Fate) (c : connection_t) (timestamp : Int) (s : List Char) :
    Option (connection_t × List Event) :=
  if frees_literal S s then none else some (echo_msg_process S f c timestamp s)

/-! ## Sequences of calls -/

/-- One call of `echo_msg_process`: the fate of its allocations, the timestamp, the raw line. -/
structure Call where
  fate : Fate
  timestamp : Int
  line : List Char

/-- The calls of a list made one after the other on the same connection; the events
are collected in order. -/
def run (S : Sys) (c : connection_t) : List Call → connection_t × List Event
  | [] => (c, [])
  | x :: rest =>
    let r := echo_msg_process S x.fate c x.timestamp x.line
    let r2 := run S r.1 rest
    (r2.1, r.2 ++ r2.2)

/-- A connection at its start: no flags, empty pending message, empty history. -/
def fresh : connection_t := ⟨0, ⟨⟨0, 0⟩, none, none, 0, []⟩⟩

/-- A collaborator set for plain ASCII lines without percent escapes: decoding is the
identity, widening maps each character to its code, the digest is a stand-in. -/
def asciiSys (hours : Nat) (window : HWND) : Sys :=
  { url_decode := fun s => some s
    Widen := fun s => some (s.map Char.toNat)
    sha1 := fun bytes => Fin.ofNat (bytes.foldl (fun acc b => acc * 257 + b + 1) 0)
    popup_mute_interval := hours
    FLAG_DISABLE_ECHO_MSG := 16
    echo_msg_window := window }

/-- The collaborators of `asciiSys`, except that `Widen` fails (out of memory) on the
string `Alert`. -/
def titleFailSys (hours : Nat) (window : HWND) : Sys :=
  { asciiSys hours window with
    Widen := fun s => if s = "Alert".toList then none else some (s.map Char.toNat) }

/-- All acquisitions succeed. -/
def lucky : Fate := ⟨true, true, true⟩

/-! ## Vocabulary of the statements -/

/-- The three accumulating directives of the line grammar: `msg <text>`, bare `msg`,
`msg-n <text>`. -/
inductive AppendDirective where
  | msg (text : List Char)
  | msg_bare
  | msg_n (text : List Char)
deriving DecidableEq, Repr

/-- The decoded line of an accumulating directive. -/
def AppendDirective.line : AppendDirective → List Char
  | .msg t => "msg ".toList ++ t
  | .msg_bare => "msg".toList
  | .msg_n t => "msg-n ".toList ++ t

/-- The fragment an accumulating directive carries. -/
def AppendDirective.fragment : AppendDirective → List Char
  | .msg t => t
  | .msg_bare => []
  | .msg_n t => t

/-- Whether the directive asks for a line break after its fragment. -/
def AppendDirective.addLineBreak : AppendDirective → Bool
  | .msg _ => true
  | .msg_bare => true
  | .msg_n _ => false

/-- An accumulating directive as it arrives: the fate of the call, its timestamp, the raw
line, the directive the raw line decodes to, and the wide form of its fragment. -/
structure AppendCall where
  fate : Fate
  timestamp : Int
  raw : List Char
  directive : AppendDirective
  wide : List WCHAR

/-- Decoding, widening and buffer growth succeed for this call. -/
def AppendCall.succeeds (S : Sys) (a : AppendCall) : Prop :=
  S.url_decode a.raw = some a.directive.line ∧
  S.Widen a.directive.fragment = some a.wide ∧
  a.fate.realloc_ok = true

/-- The call of `echo_msg_process` an arriving directive amounts to. -/
def AppendCall.call (a : AppendCall) : Call := ⟨a.fate, a.timestamp, a.raw⟩

/-- What one directive contributes to the text: its fragment, then CR LF exactly when the
directive was `msg`. -/
def AppendCall.piece (a : AppendCall) : List WCHAR :=
  a.wide ++ (if a.directive.addLineBreak then CRLF else [])

/-- The concatenation, in arrival order, of the pieces of the directives. -/
def concat_pieces (calls : List AppendCall) : List WCHAR :=
  (calls.map AppendCall.piece).flatten

/-- The pending text agrees with its recorded length. -/
def text_wf (c : connection_t) : Prop :=
  c.echo_msg.txtlen = (c.echo_msg.text.getD []).length

/-- The two finalize directives of the line grammar, named by their surface. -/
inductive Surface where
  | window
  | notify
deriving DecidableEq, Repr

/-- The keyword of a finalize directive, with its trailing blank. -/
def Surface.keyword : Surface → String
  | .window => "msg-window "
  | .notify => "msg-notify "

/-- The decoded line of a finalize directive: the keyword, then the title. -/
def Surface.line (sf : Surface) (title : List Char) : List Char := sf.keyword.toList ++ title

/-- The `type` argument `echo_msg_display` receives for a finalize directive. -/
def Surface.type : Surface → Nat
  | .window => ECHO_MSG_WINDOW
  | .notify => ECHO_MSG_NOTIFY

/-- The title `echo_msg_display` stores for the remainder `title` of the directive. -/
def wide_title (S : Sys) (title : List Char) : List WCHAR :=
  (S.Widen title).getD (L "Message from server")

/-- The body of the pending message: the `txtlen` characters of its text. -/
def body (c : connection_t) : List WCHAR := (c.echo_msg.text.getD []).take c.echo_msg.txtlen

/-- The digest of a message with the given body and wide title: the digest of the bytes of
the body followed by the bytes of the title. -/
def message_digest (S : Sys) (text title : List WCHAR) : Digest :=
  S.sha1 (wbytes text ++ wbytes title)

/-- The first history entry with the given digest, if any: the entry `echo_msg_recall`
points to. -/
def first_entry (d : Digest) (hist : List echo_msg_fp) : Option echo_msg_fp :=
  (echo_msg_recall d hist).bind fun i => hist[i]?

/-- The one call the surface of a finalize directive receives for a title and a text. -/
def Surface.call (sf : Surface) (S : Sys) (title : List WCHAR) (text : Option (List WCHAR)) :
    Event :=
  match sf with
  | .window => Event.AddMessageBoxText S.echo_msg_window text (some title)
  | .notify => Event.ShowTrayBalloon (some title) text

/-- The pending message as `echo_msg_display` has it when it tests for muting: the title is
set from the remainder of the directive and the fingerprint added. -/
def finalized (S : Sys) (f : Fate) (c : connection_t) (t : Int) (title : List Char) : echo_msg :=
  echo_msg_add_fp S f { c.echo_msg with title := some (wide_title S title) } t

/-- What `echo_msg_display` writes to the log: a line when the title cannot be widened. -/
def title_log (S : Sys) (title : List Char) : List Event :=
  if (S.Widen title).isSome then []
  else [Event.WriteStatusLog "GUI> "
    "Error: out of memory converting echo message title to widechar" none]

/-- The presentation of an unmuted message by `echo_msg_display`: the window surface when
the type says so and the window exists, the notification surface for any other type. -/
def presented (S : Sys) (c : connection_t) (title : List Char) (type : Nat) : List Event :=
  if type = ECHO_MSG_WINDOW then
    (if S.echo_msg_window ≠ 0 then
      [Event.AddMessageBoxText S.echo_msg_window c.echo_msg.text (some (wide_title S title))]
     else [])
  else [Event.ShowTrayBalloon (some (wide_title S title)) c.echo_msg.text]

/-- The test `echo_msg_display` makes before presenting: the connection has echo messages
disabled, or the message is a repeat. -/
def muted (S : Sys) (f : Fate) (c : connection_t) (t : Int) (title : List Char) : Prop :=
  c.flags &&& S.FLAG_DISABLE_ECHO_MSG ≠ 0 ∨ echo_msg_repeated S (finalized S f c t title) = true

instance (S : Sys) (f : Fate) (c : connection_t) (t : Int) (title : List Char) :
    Decidable (muted S f c t title) := by
  unfold muted; infer_instance

/-- A sequence of `echo_msg_save` calls on one pending message: each call saves the
fingerprint the message carries at that moment, with the fate of its allocation. -/
def save_all (msg : echo_msg) : List (Fate × echo_msg_fp) → echo_msg
  | [] => msg
  | (f, fp) :: rest => save_all (echo_msg_save f { msg with fp := fp }) rest

/-- The number of history entries with a given digest. -/
def entries_with (d : Digest) (hist : List echo_msg_fp) : Nat :=
  hist.countP fun e => e.digest = d

/-- The line begins with the given keyword. -/
def begins_with (keyword : String) (msg : List Char) : Prop := keyword.toList <+: msg

instance (keyword : String) (msg : List Char) : Decidable (begins_with keyword msg) := by
  unfold begins_with; infer_instance

/-- The line has one of the five directive forms of the line grammar: it begins with
`msg `, is exactly `msg`, or begins with `msg-n `, `msg-window ` or `msg-notify `. -/
def is_directive (msg : List Char) : Prop :=
  begins_with "msg " msg ∨ msg = "msg".toList ∨ begins_with "msg-n " msg ∨
  begins_with "msg-window " msg ∨ begins_with "msg-notify " msg

instance (msg : List Char) : Decidable (is_directive msg) := by
  unfold is_directive; infer_instance

/-- The kinds of line the dispatcher tells apart: the five directive forms and the rest. -/
inductive DirectiveKind where
  | msg
  | msg_bare
  | msg_n
  | msg_window
  | msg_notify
  | unknown
deriving DecidableEq, Repr

/-- The kind of a decoded line according to the chain of tests of `echo_msg_process`, in
the order of the source: `msg `, `msg`, `msg-n `, `msg-window `, `msg-notify `. -/
def classify (msg : List Char) : DirectiveKind :=
  if strbegins msg "msg " then .msg
  else if streq msg "msg" then .msg_bare
  else if strbegins msg "msg-n " then .msg_n
  else if strbegins msg "msg-window " then .msg_window
  else if strbegins msg "msg-notify " then .msg_notify
  else .unknown

/-- The action `echo_msg_process` takes on a decoded line of each kind. -/
def dispatch (S : Sys) (f : Fate) (c : connection_t) (timestamp : Int) (msg : List Char) :
    DirectiveKind → connection_t × List Event
  | .msg => echo_msg_append S f c timestamp (msg.drop 4) true
  | .msg_bare => echo_msg_append S f c timestamp (msg.drop 3) true
  | .msg_n => echo_msg_append S f c timestamp (msg.drop 6) false
  | .msg_window =>
    (echo_msg_clear (echo_msg_display S f c timestamp (msg.drop 11) ECHO_MSG_WINDOW).1 false,
      (echo_msg_display S f c timestamp (msg.drop 11) ECHO_MSG_WINDOW).2)
  | .msg_notify =>
    (echo_msg_clear (echo_msg_display S f c timestamp (msg.drop 11) ECHO_MSG_NOTIFY).1 false,
      (echo_msg_display S f c timestamp (msg.drop 11) ECHO_MSG_NOTIFY).2)
  | .unknown => (c, [unknown_directive msg])

/-- The pattern of each kind, in the words of the line grammar: prefix `msg `, exactly
`msg`, prefix `msg-n `, prefix `msg-window `, prefix `msg-notify `; the kind `unknown` has
no pattern. -/
def fits (k : DirectiveKind) (msg : List Char) : Bool :=
  match k with
  | .msg => decide (begins_with "msg " msg)
  | .msg_bare => decide (msg = "msg".toList)
  | .msg_n => decide (begins_with "msg-n " msg)
  | .msg_window => decide (begins_with "msg-window " msg)
  | .msg_notify => decide (begins_with "msg-notify " msg)
  | .unknown => false

/-- A dispatcher that tries the patterns in a given order: the kind of the line is the first
kind of the order whose pattern the line fits, and `unknown` if there is none. -/
def classify_by (order : List DirectiveKind) (msg : List Char) : DirectiveKind :=
  (order.find? fun k => fits k msg).getD .unknown

/-- The order of the tests in the source. -/
def source_order : List DirectiveKind := [.msg, .msg_bare, .msg_n, .msg_window, .msg_notify]

/-- The patterns with the longest first: `msg-window ` and `msg-notify ` (11 characters),
`msg-n ` (6), `msg ` (4), `msg` (3). -/
def longest_first : List DirectiveKind := [.msg_window, .msg_notify, .msg_n, .msg, .msg_bare]

end EchoMsg

namespace EchoMsg

/-! ## Basic facts -/

theorem toList_msg_sp : "msg ".toList = ['m', 's', 'g', ' '] := rfl

theorem toList_msg : "msg".toList = ['m', 's', 'g'] := rfl

theorem toList_msg_n : "msg-n ".toList = ['m', 's', 'g', '-', 'n', ' '] := rfl

theorem toList_msg_window :
    "msg-window ".toList = ['m', 's', 'g', '-', 'w', 'i', 'n', 'd', 'o', 'w', ' '] := rfl

theorem toList_msg_notify :
    "msg-notify ".toList = ['m', 's', 'g', '-', 'n', 'o', 't', 'i', 'f', 'y', ' '] := rfl

theorem L_empty : L "" = [] := rfl

/-- One accumulating directive, all going well, on a well-formed pending text: the text
grows by the piece of the directive, nothing else changes and nothing is emitted. -/
theorem process_append_ok (S : Sys) (c : connection_t) (a : AppendCall)
    (hok : a.succeeds S) (hwf : text_wf c) :
    echo_msg_process S a.fate c a.timestamp a.raw =
      ({ c with echo_msg := { c.echo_msg with
            text := some (c.echo_msg.text.getD [] ++ a.piece)
            txtlen := c.echo_msg.txtlen + a.piece.length } }, []) := by
  obtain ⟨hdec, hw, hre⟩ := hok
  unfold text_wf at hwf
  rcases a with ⟨f, t, raw, d, w⟩
  simp only at hdec hw hre
  cases d with
  | msg txt =>
    simp only [AppendDirective.line, AppendDirective.fragment] at hdec hw
    simp [echo_msg_process, hdec, strbegins, echo_msg_append, toList_msg_sp, hw, hre,
      AppendCall.piece, AppendDirective.addLineBreak, CRLF, wcslen, hwf]
    omega
  | msg_bare =>
    simp only [AppendDirective.line, AppendDirective.fragment] at hdec hw
    simp [echo_msg_process, hdec, strbegins, streq, echo_msg_append, toList_msg_sp, toList_msg,
      hw, hre, AppendCall.piece, AppendDirective.addLineBreak, CRLF, wcslen, hwf,
      List.isPrefixOf]
    omega
  | msg_n txt =>
    simp only [AppendDirective.line, AppendDirective.fragment] at hdec hw
    simp [echo_msg_process, hdec, strbegins, streq, echo_msg_append, toList_msg_sp, toList_msg,
      toList_msg_n, hw, hre, AppendCall.piece, AppendDirective.addLineBreak, L_empty, wcslen,
      hwf, List.isPrefixOf]

/-- A sequence of accumulating directives, all going well, on a well-formed pending text:
the text grows by the pieces in arrival order; flags, title, fingerprint and history stay
and nothing is emitted. -/
theorem run_appends (S : Sys) (calls : List AppendCall) :
    ∀ c : connection_t, (∀ a ∈ calls, a.succeeds S) → text_wf c →
      run S c (calls.map AppendCall.call) =
        ({ c with echo_msg := { c.echo_msg with
              text := if calls.isEmpty then c.echo_msg.text
                      else some (c.echo_msg.text.getD [] ++ concat_pieces calls)
              txtlen := c.echo_msg.txtlen + (concat_pieces calls).length } }, []) := by
  induction calls with
  | nil => intro c _ _; simp [run, concat_pieces]
  | cons a rest ih =>
    intro c hok hwf
    have ha : a.succeeds S := hok a (List.mem_cons_self _ _)
    have hrest : ∀ b ∈ rest, b.succeeds S := fun b hb => hok b (List.mem_cons_of_mem _ hb)
    have hstep := process_append_ok S c a ha hwf
    have hstep2 : echo_msg_process S (AppendCall.call a).fate c (AppendCall.call a).timestamp
        (AppendCall.call a).line = _ := hstep
    have hwf2 : text_wf { c with echo_msg := { c.echo_msg with
            text := some (c.echo_msg.text.getD [] ++ a.piece)
            txtlen := c.echo_msg.txtlen + a.piece.length } } := by
      unfold text_wf at hwf ⊢
      simp [hwf]
    have ih2 := ih _ hrest hwf2
    simp only [List.map_cons, run, hstep2, ih2]
    cases rest with
    | nil => simp [concat_pieces]
    | cons b more => simp [concat_pieces, Nat.add_assoc]

/-- Claim C1. For every sequence of `msg <text>`, bare `msg` and `msg-n <text>` directives
given to `echo_msg_process` on a connection whose pending text is empty, with decoding,
widening and buffer growth succeeding at each call, the pending text afterwards is the
concatenation, in arrival order, of each fragment followed by CR LF exactly when the
directive was `msg`, and `txtlen` is the number of characters of that text. -/
theorem append_sequence_text (S : Sys) (c : connection_t) (calls : List AppendCall)
    (hempty : c.echo_msg.text.getD [] = [] ∧ c.echo_msg.txtlen = 0)
    (hok : ∀ a ∈ calls, a.succeeds S) :
    ((run S c (calls.map AppendCall.call)).1.echo_msg.text.getD [] = concat_pieces calls) ∧
    (run S c (calls.map AppendCall.call)).1.echo_msg.txtlen = (concat_pieces calls).length := by
  have hwf : text_wf c := by unfold text_wf; rw [hempty.1, hempty.2]; rfl
  rw [run_appends S calls c hok hwf]
  cases calls with
  | nil => simp [concat_pieces, hempty.1, hempty.2]
  | cons b more => simp [hempty.1, hempty.2]

theorem append_sequence_text_witness :
    (∀ a ∈ [(⟨lucky, 1000, "msg-n Partial".toList, .msg_n "Partial".toList, L "Partial"⟩ : AppendCall),
            ⟨lucky, 1001, "msg rest".toList, .msg "rest".toList, L "rest"⟩],
        a.succeeds (asciiSys 1 7)) ∧
    (run (asciiSys 1 7) fresh
        [⟨lucky, 1000, "msg-n Partial".toList⟩, ⟨lucky, 1001, "msg rest".toList⟩]).1.echo_msg.text.getD []
      = L "Partialrest\r\n" ∧
    (run (asciiSys 1 7) fresh
        [⟨lucky, 1000, "msg-n Partial".toList⟩, ⟨lucky, 1001, "msg rest".toList⟩]).1.echo_msg.txtlen
      = 13 := by
  have hok : ∀ a ∈ [(⟨lucky, 1000, "msg-n Partial".toList, .msg_n "Partial".toList, L "Partial"⟩ : AppendCall),
            ⟨lucky, 1001, "msg rest".toList, .msg "rest".toList, L "rest"⟩],
        a.succeeds (asciiSys 1 7) := by
    intro a ha
    simp only [List.mem_cons, List.mem_singleton, List.not_mem_nil, or_false] at ha
    rcases ha with rfl | rfl <;> exact ⟨rfl, rfl, rfl⟩
  have h := append_sequence_text (asciiSys 1 7) fresh _ ⟨rfl, rfl⟩ hok
  exact ⟨hok, h.1, h.2⟩

/-! ## The history list -/

theorem first_entry_nil (d : Digest) : first_entry d [] = none := rfl

theorem first_entry_cons (d : Digest) (h : echo_msg_fp) (rest : List echo_msg_fp) :
    first_entry d (h :: rest) = if h.digest = d then some h else first_entry d rest := by
  unfold first_entry
  simp only [echo_msg_recall]
  split
  · simp
  · cases hr : echo_msg_recall d rest with
    | none => simp
    | some i => simp

theorem recall_eq_none_iff (d : Digest) (hist : List echo_msg_fp) :
    echo_msg_recall d hist = none ↔ first_entry d hist = none := by
  induction hist with
  | nil => simp [echo_msg_recall, first_entry]
  | cons h rest ih =>
    rw [first_entry_cons]
    simp only [echo_msg_recall]
    split
    · simp
    · simp [ih]

theorem recall_get (d : Digest) (hist : List echo_msg_fp) (i : Nat)
    (h : echo_msg_recall d hist = some i) : ∃ e, hist[i]? = some e ∧ e.digest = d := by
  induction hist generalizing i with
  | nil => simp [echo_msg_recall] at h
  | cons x rest ih =>
    simp only [echo_msg_recall] at h
    split at h
    · rename_i hx
      cases h
      exact ⟨x, by simp, hx⟩
    · cases hr : echo_msg_recall d rest with
      | none => simp [hr] at h
      | some j =>
        simp [hr] at h
        subst h
        simpa using ih j hr

theorem first_entry_digest (d : Digest) (hist : List echo_msg_fp) (e : echo_msg_fp)
    (h : first_entry d hist = some e) : e.digest = d := by
  induction hist with
  | nil => simp [first_entry_nil] at h
  | cons x rest ih =>
    rw [first_entry_cons] at h
    split at h
    · rename_i hx; cases h; exact hx
    · exact ih h

theorem first_entry_eq_none_iff (d : Digest) (hist : List echo_msg_fp) :
    first_entry d hist = none ↔ ∀ e ∈ hist, e.digest ≠ d := by
  induction hist with
  | nil => simp [first_entry_nil]
  | cons x rest ih =>
    rw [first_entry_cons]
    by_cases hx : x.digest = d
    · simp [hx]
    · simp [hx, ih]

/-- Without wraparound of the 32-bit product, `mute_seconds` is the interval in seconds. -/
theorem mute_seconds_eq (S : Sys) (h : S.popup_mute_interval * 3600 < 2 ^ 32) :
    mute_seconds S = S.popup_mute_interval * 3600 := by
  unfold mute_seconds
  exact Nat.mod_eq_of_lt h

/-- A sum within the range of `time_t` is not changed by the wraparound. -/
theorem wrap_time_eq (x : Int) (hlo : -2 ^ 63 ≤ x) (hhi : x < 2 ^ 63) : wrap_time x = x := by
  unfold wrap_time
  rw [Int.emod_eq_of_lt (by omega) (by omega)]
  omega

/-- The sum the mute test forms, when neither the product nor the sum wraps around. -/
theorem mute_deadline_eq (S : Sys) (t : Int) (hprod : S.popup_mute_interval * 3600 < 2 ^ 32)
    (hlo : -2 ^ 63 ≤ t) (hhi : t + (S.popup_mute_interval : Int) * 3600 < 2 ^ 63) :
    wrap_time (t + (mute_seconds S : Int)) = t + (S.popup_mute_interval : Int) * 3600 := by
  rw [mute_seconds_eq S hprod]
  push_cast
  exact wrap_time_eq _ (by omega) hhi

/-- The mute test in terms of the first entry with the digest of the message. -/
theorem repeated_iff (S : Sys) (msg : echo_msg) :
    echo_msg_repeated S msg = true ↔
      ∃ e, first_entry msg.fp.digest msg.history = some e ∧
        wrap_time (e.timestamp + (mute_seconds S : Int)) > msg.fp.timestamp := by
  unfold echo_msg_repeated first_entry
  cases hr : echo_msg_recall msg.fp.digest msg.history with
  | none => simp
  | some i =>
    obtain ⟨e, he, _⟩ := recall_get _ _ _ hr
    simp [he]

/-- Writing a timestamp through the pointer `echo_msg_recall` returned. -/
theorem first_entry_store (d d2 : Digest) (ts : Int) (hist : List echo_msg_fp) (i : Nat)
    (h : echo_msg_recall d hist = some i) :
    first_entry d2 (store_timestamp hist i ts) =
      if d2 = d then some ⟨d, ts⟩ else first_entry d2 hist := by
  induction hist generalizing i with
  | nil => simp [echo_msg_recall] at h
  | cons x rest ih =>
    simp only [echo_msg_recall] at h
    split at h
    · rename_i hx
      cases h
      simp only [store_timestamp, first_entry_cons]
      by_cases h2 : d2 = d
      · subst h2; simp [hx]
      · have h3 : ¬ d = d2 := fun hh => h2 hh.symm
        simp [h2, h3, hx]
    · rename_i hx
      cases hr : echo_msg_recall d rest with
      | none => simp [hr] at h
      | some j =>
        simp [hr] at h
        subst h
        simp only [store_timestamp, first_entry_cons, ih j hr]
        by_cases h2 : d2 = d
        · subst h2; simp [hx]
        · simp [h2]

theorem store_timestamp_digests (hist : List echo_msg_fp) (i : Nat) (ts : Int) :
    (store_timestamp hist i ts).map echo_msg_fp.digest = hist.map echo_msg_fp.digest := by
  induction hist generalizing i with
  | nil => rfl
  | cons x rest ih =>
    cases i with
    | zero => simp [store_timestamp]
    | succ j => simp [store_timestamp, ih]

theorem store_timestamp_length (hist : List echo_msg_fp) (i : Nat) (ts : Int) :
    (store_timestamp hist i ts).length = hist.length := by
  have := congrArg List.length (store_timestamp_digests hist i ts)
  simpa using this

/-- After `echo_msg_save` the first entry with the digest of the message is its fingerprint,
provided a node could be allocated when one was needed. -/
theorem first_entry_save_same (f : Fate) (msg : echo_msg)
    (h : f.malloc_ok = true ∨ first_entry msg.fp.digest msg.history ≠ none) :
    first_entry msg.fp.digest (echo_msg_save f msg).history = some msg.fp := by
  unfold echo_msg_save
  cases hr : echo_msg_recall msg.fp.digest msg.history with
  | none =>
    have hn := (recall_eq_none_iff _ _).1 hr
    rcases h with h | h
    · simp [echo_msg_history_add, h, first_entry_cons]
    · exact absurd hn h
  | some i =>
    simp [first_entry_store _ _ _ _ _ hr]

/-- The call `echo_msg_save` leaves the first entry of every other digest as it was. -/
theorem first_entry_save_other (f : Fate) (msg : echo_msg) (d2 : Digest)
    (h : d2 ≠ msg.fp.digest) :
    first_entry d2 (echo_msg_save f msg).history = first_entry d2 msg.history := by
  unfold echo_msg_save
  cases hr : echo_msg_recall msg.fp.digest msg.history with
  | none =>
    simp only [echo_msg_history_add]
    split
    · rw [first_entry_cons]; simp [Ne.symm h]
    · rfl
  | some i =>
    simp [first_entry_store _ _ _ _ _ hr, h]

/-- The call `echo_msg_save` touches the history only. -/
theorem save_frame (f : Fate) (msg : echo_msg) :
    (echo_msg_save f msg).fp = msg.fp ∧ (echo_msg_save f msg).title = msg.title ∧
    (echo_msg_save f msg).text = msg.text ∧ (echo_msg_save f msg).txtlen = msg.txtlen := by
  unfold echo_msg_save
  cases echo_msg_recall msg.fp.digest msg.history <;> simp

/-! ## The display pipeline -/

theorem strbegins_iff (msg : List Char) (p : String) :
    strbegins msg p = true ↔ ∃ r, msg = p.toList ++ r := by
  simp only [strbegins, List.isPrefixOf_iff_prefix]
  constructor
  · rintro ⟨r, rfl⟩; exact ⟨r, rfl⟩
  · rintro ⟨r, rfl⟩; exact ⟨r, rfl⟩

/-- A finalize directive reaches `echo_msg_display` with the remainder of the line as title
and the type of its surface, and the pending message is reset afterwards. -/
theorem process_finalize (S : Sys) (f : Fate) (c : connection_t) (t : Int) (raw : List Char)
    (sf : Surface) (title : List Char) (hdec : S.url_decode raw = some (sf.line title)) :
    echo_msg_process S f c t raw =
      (echo_msg_clear (echo_msg_display S f c t title sf.type).1 false,
        (echo_msg_display S f c t title sf.type).2) := by
  cases sf with
  | window =>
    simp [echo_msg_process, hdec, Surface.line, Surface.keyword, Surface.type, strbegins, streq,
      toList_msg_sp, toList_msg, toList_msg_n, toList_msg_window, List.isPrefixOf]
  | notify =>
    simp [echo_msg_process, hdec, Surface.line, Surface.keyword, Surface.type, strbegins, streq,
      toList_msg_sp, toList_msg, toList_msg_n, toList_msg_window, toList_msg_notify,
      List.isPrefixOf]

/-- The call `echo_msg_add_fp` writes the fingerprint only, and its timestamp is the one
supplied. -/
theorem add_fp_frame (S : Sys) (f : Fate) (msg : echo_msg) (t : Int) :
    (echo_msg_add_fp S f msg t).title = msg.title ∧ (echo_msg_add_fp S f msg t).text = msg.text ∧
    (echo_msg_add_fp S f msg t).txtlen = msg.txtlen ∧
    (echo_msg_add_fp S f msg t).history = msg.history ∧
    (echo_msg_add_fp S f msg t).fp.timestamp = t := by
  unfold echo_msg_add_fp md_init
  cases f.md_init_ok <;> simp

/-- The two ways through `echo_msg_display`. -/
theorem display_eq (S : Sys) (f : Fate) (c : connection_t) (t : Int) (title : List Char)
    (type : Nat) :
    echo_msg_display S f c t title type =
      if muted S f c t title then
        ({ c with echo_msg := finalized S f c t title }, title_log S title)
      else
        ({ c with echo_msg := echo_msg_save f (finalized S f c t title) },
          title_log S title ++ presented S c title type) := by
  unfold echo_msg_display
  simp only [muted, finalized, title_log, presented, wide_title]
  cases hw : S.Widen title with
  | none =>
    simp only [Option.getD_none, Option.isSome_none]
    split
    · rfl
    · simp [(add_fp_frame S f _ t).1, (add_fp_frame S f _ t).2.1]
  | some w =>
    simp only [Option.getD_some, Option.isSome_some]
    split
    · rfl
    · simp [(add_fp_frame S f _ t).1, (add_fp_frame S f _ t).2.1]

/-- With the digest primitive available, the fingerprint of the finalized message is the
digest of its body and title together with the timestamp of the directive. -/
theorem finalized_fp (S : Sys) (f : Fate) (c : connection_t) (t : Int) (title : List Char)
    (hmd : f.md_init_ok = true) :
    (finalized S f c t title).fp = ⟨message_digest S (body c) (wide_title S title), t⟩ := by
  simp [finalized, echo_msg_add_fp, md_init, hmd, md_update, md_final, message_digest, body,
    wcslen]

theorem finalized_frame (S : Sys) (f : Fate) (c : connection_t) (t : Int) (title : List Char) :
    (finalized S f c t title).title = some (wide_title S title) ∧
    (finalized S f c t title).text = c.echo_msg.text ∧
    (finalized S f c t title).txtlen = c.echo_msg.txtlen ∧
    (finalized S f c t title).history = c.echo_msg.history ∧
    (finalized S f c t title).fp.timestamp = t := by
  unfold finalized
  have h := add_fp_frame S f { c.echo_msg with title := some (wide_title S title) } t
  simpa using h

theorem surface_calls_title_log (S : Sys) (title : List Char) :
    surface_calls (title_log S title) = [] := by
  unfold title_log surface_calls
  split <;> simp [Event.isSurface]

theorem surface_calls_presented (S : Sys) (c : connection_t) (title : List Char) (type : Nat) :
    surface_calls (presented S c title type) = presented S c title type := by
  unfold presented surface_calls
  split
  · split <;> simp [Event.isSurface]
  · simp [Event.isSurface]

theorem surface_calls_append (a b : List Event) :
    surface_calls (a ++ b) = surface_calls a ++ surface_calls b := by
  simp [surface_calls]

/-- The surface calls of a finalize directive: none when muted, the presentation otherwise. -/
theorem surface_calls_display (S : Sys) (f : Fate) (c : connection_t) (t : Int)
    (title : List Char) (type : Nat) :
    surface_calls (echo_msg_display S f c t title type).2 =
      if muted S f c t title then [] else presented S c title type := by
  rw [display_eq]
  split
  · exact surface_calls_title_log S title
  · simp [surface_calls_append, surface_calls_title_log, surface_calls_presented]

/-- The history after a finalize directive: untouched when muted, saved otherwise. -/
theorem history_display (S : Sys) (f : Fate) (c : connection_t) (t : Int)
    (title : List Char) (type : Nat) :
    (echo_msg_display S f c t title type).1.echo_msg.history =
      if muted S f c t title then c.echo_msg.history
      else (echo_msg_save f (finalized S f c t title)).history := by
  rw [display_eq]
  split
  · exact (finalized_frame S f c t title).2.2.2.1
  · rfl

theorem clear_keeps_history (c : connection_t) :
    (echo_msg_clear c false).echo_msg.history = c.echo_msg.history := by
  simp [echo_msg_clear]

theorem presented_eq (S : Sys) (c : connection_t) (title : List Char) (sf : Surface)
    (hw : sf = Surface.window → S.echo_msg_window ≠ 0) :
    presented S c title sf.type = [sf.call S (wide_title S title) c.echo_msg.text] := by
  cases sf with
  | window =>
    have := hw rfl
    simp [presented, Surface.type, Surface.call, this]
  | notify =>
    simp [presented, Surface.type, Surface.call, ECHO_MSG_NOTIFY, ECHO_MSG_WINDOW]

theorem presented_window_null (S : Sys) (c : connection_t) (title : List Char)
    (hw : S.echo_msg_window = 0) :
    presented S c title Surface.window.type = [] := by
  simp [presented, Surface.type, hw]

/-- The pending message after the reset that follows every finalize directive. -/
theorem clear_false_eq (c : connection_t) :
    echo_msg_clear c false =
      ⟨c.flags, ⟨⟨0, 0⟩, none, none, 0, c.echo_msg.history⟩⟩ := by
  simp [echo_msg_clear]

/-- The whole effect of a finalize directive. -/
theorem process_finalize_eq (S : Sys) (f : Fate) (c : connection_t) (t : Int) (raw : List Char)
    (sf : Surface) (title : List Char) (hdec : S.url_decode raw = some (sf.line title)) :
    echo_msg_process S f c t raw =
      if muted S f c t title then
        (⟨c.flags, ⟨⟨0, 0⟩, none, none, 0, c.echo_msg.history⟩⟩, title_log S title)
      else
        (⟨c.flags, ⟨⟨0, 0⟩, none, none, 0, (echo_msg_save f (finalized S f c t title)).history⟩⟩,
          title_log S title ++ presented S c title sf.type) := by
  rw [process_finalize S f c t raw sf title hdec, display_eq, clear_false_eq]
  split
  · simp [(finalized_frame S f c t title).2.2.2.1]
  · simp

/-- One cycle of the scenario: `msg Hello` then `msg-window Alert` at time `t`, on a
connection with an empty pending message. -/
theorem hello_alert_cycle (S : Sys) (wh wa : List WCHAR) (hist : List echo_msg_fp) (t : Int)
    (hd1 : S.url_decode "msg Hello".toList = some "msg Hello".toList)
    (hd2 : S.url_decode "msg-window Alert".toList = some "msg-window Alert".toList)
    (hw1 : S.Widen "Hello".toList = some wh) (hw2 : S.Widen "Alert".toList = some wa)
    (hwin : S.echo_msg_window ≠ 0) :
    run S ⟨0, ⟨⟨0, 0⟩, none, none, 0, hist⟩⟩
        [⟨lucky, t, "msg Hello".toList⟩, ⟨lucky, t, "msg-window Alert".toList⟩] =
      if (∃ e, first_entry (message_digest S (wh ++ CRLF) wa) hist = some e ∧
            wrap_time (e.timestamp + (mute_seconds S : Int)) > t) then
        (⟨0, ⟨⟨0, 0⟩, none, none, 0, hist⟩⟩, [])
      else
        (⟨0, ⟨⟨0, 0⟩, none, none, 0,
            (echo_msg_save lucky ⟨⟨message_digest S (wh ++ CRLF) wa, t⟩, some wa,
              some (wh ++ CRLF), (wh ++ CRLF).length, hist⟩).history⟩⟩,
          [Event.AddMessageBoxText S.echo_msg_window (some (wh ++ CRLF)) (some wa)]) := by
  have h1 := process_append_ok S ⟨0, ⟨⟨0, 0⟩, none, none, 0, hist⟩⟩
    ⟨lucky, t, "msg Hello".toList, .msg "Hello".toList, wh⟩ ⟨hd1, hw1, rfl⟩ rfl
  have h2 := fun c => process_finalize_eq S lucky c t "msg-window Alert".toList Surface.window
    "Alert".toList hd2
  simp only [AppendCall.piece, AppendDirective.addLineBreak, if_true, Option.getD_none,
    List.nil_append, Nat.zero_add] at h1
  simp only [run, h1, h2]
  have hwt : wide_title S "Alert".toList = wa := by rw [wide_title, hw2]; rfl
  have hfin : finalized S lucky ⟨0, ⟨⟨0, 0⟩, none, some (wh ++ CRLF), (wh ++ CRLF).length, hist⟩⟩ t
      "Alert".toList = ⟨⟨message_digest S (wh ++ CRLF) wa, t⟩, some wa,
              some (wh ++ CRLF), (wh ++ CRLF).length, hist⟩ := by
    simp only [finalized, hwt, echo_msg_add_fp, md_init, lucky, md_update, md_final,
      message_digest, wcslen, if_true, Option.getD_some, List.take_length, List.nil_append]
  have hlog : title_log S "Alert".toList = [] := by rw [title_log, hw2]; rfl
  have hpres : presented S ⟨0, ⟨⟨0, 0⟩, none, some (wh ++ CRLF), (wh ++ CRLF).length, hist⟩⟩
      "Alert".toList Surface.window.type =
      [Event.AddMessageBoxText S.echo_msg_window (some (wh ++ CRLF)) (some wa)] := by
    rw [presented_eq S _ _ Surface.window (fun _ => hwin), hwt]; rfl
  have hmuted : muted S lucky ⟨0, ⟨⟨0, 0⟩, none, some (wh ++ CRLF), (wh ++ CRLF).length, hist⟩⟩ t
      "Alert".toList ↔ (∃ e, first_entry (message_digest S (wh ++ CRLF) wa) hist = some e ∧
            wrap_time (e.timestamp + (mute_seconds S : Int)) > t) := by
    unfold muted
    rw [repeated_iff, hfin]
    simp
  rw [hlog, hpres, hfin]
  by_cases hm : (∃ e, first_entry (message_digest S (wh ++ CRLF) wa) hist = some e ∧
            wrap_time (e.timestamp + (mute_seconds S : Int)) > t)
  · rw [if_pos (hmuted.2 hm), if_pos hm]
    rfl
  · rw [if_neg (fun h => hm (hmuted.1 h)), if_neg hm]
    simp

theorem entries_with_le_one_iff (hist : List echo_msg_fp) :
    (∀ d, entries_with d hist ≤ 1) ↔ (hist.map echo_msg_fp.digest).Nodup := by
  rw [List.nodup_iff_count_le_one]
  constructor
  · intro h d
    have := h d
    simpa [entries_with, List.count, List.countP_map, Function.comp_def] using this
  · intro h d
    have := h d
    simpa [entries_with, List.count, List.countP_map, Function.comp_def] using this

/-- The call `echo_msg_save` keeps the digests of the history pairwise different. -/
theorem save_nodup (f : Fate) (msg : echo_msg)
    (h : (msg.history.map echo_msg_fp.digest).Nodup) :
    ((echo_msg_save f msg).history.map echo_msg_fp.digest).Nodup := by
  unfold echo_msg_save
  cases hr : echo_msg_recall msg.fp.digest msg.history with
  | none =>
    simp only [echo_msg_history_add]
    split
    · have hn := (first_entry_eq_none_iff _ _).1 ((recall_eq_none_iff _ _).1 hr)
      simp only [List.map_cons, List.nodup_cons]
      refine ⟨?_, h⟩
      intro hmem
      obtain ⟨e, he, hed⟩ := List.mem_map.1 hmem
      exact hn e he hed
    · exact h
  | some i =>
    simp only [store_timestamp_digests]
    exact h

theorem append_history (S : Sys) (f : Fate) (c : connection_t) (t : Int) (msg : List Char)
    (addnl : Bool) :
    (echo_msg_append S f c t msg addnl).1.echo_msg.history = c.echo_msg.history := by
  unfold echo_msg_append
  cases S.Widen msg with
  | none => rfl
  | some w =>
    simp only
    split <;> rfl

/-- What one call of `echo_msg_process` can do to the history: nothing, or one
`echo_msg_save` on it. -/
theorem process_history (S : Sys) (f : Fate) (c : connection_t) (t : Int) (raw : List Char) :
    (echo_msg_process S f c t raw).1.echo_msg.history = c.echo_msg.history ∨
    ∃ m : echo_msg, m.history = c.echo_msg.history ∧
      (echo_msg_process S f c t raw).1.echo_msg.history = (echo_msg_save f m).history := by
  unfold echo_msg_process
  cases S.url_decode raw with
  | none => left; rfl
  | some msg =>
    simp only
    split_ifs
    · left; exact append_history ..
    · left; exact append_history ..
    · left; exact append_history ..
    · simp only [clear_keeps_history, history_display]
      split
      · left; rfl
      · right; exact ⟨_, (finalized_frame S f c t _).2.2.2.1, rfl⟩
    · simp only [clear_keeps_history, history_display]
      split
      · left; rfl
      · right; exact ⟨_, (finalized_frame S f c t _).2.2.2.1, rfl⟩
    · left; rfl

theorem process_nodup (S : Sys) (f : Fate) (c : connection_t) (t : Int) (raw : List Char)
    (h : (c.echo_msg.history.map echo_msg_fp.digest).Nodup) :
    ((echo_msg_process S f c t raw).1.echo_msg.history.map echo_msg_fp.digest).Nodup := by
  rcases process_history S f c t raw with h1 | ⟨m, hm, h1⟩
  · rw [h1]; exact h
  · rw [h1]; exact save_nodup f m (hm ▸ h)

theorem run_nodup (S : Sys) (calls : List Call) :
    ∀ c : connection_t, (c.echo_msg.history.map echo_msg_fp.digest).Nodup →
      ((run S c calls).1.echo_msg.history.map echo_msg_fp.digest).Nodup := by
  induction calls with
  | nil => intro c h; exact h
  | cons x rest ih =>
    intro c h
    simp only [run]
    exact ih _ (process_nodup S x.fate c x.timestamp x.line h)

theorem save_all_nodup (saves : List (Fate × echo_msg_fp)) :
    ∀ msg : echo_msg, (msg.history.map echo_msg_fp.digest).Nodup →
      ((save_all msg saves).history.map echo_msg_fp.digest).Nodup := by
  induction saves with
  | nil => intro msg h; exact h
  | cons x rest ih =>
    intro msg h
    obtain ⟨f, fp⟩ := x
    simp only [save_all]
    exact ih _ (save_nodup f _ h)

/-- Claim C4 (history key uniqueness). Starting from an empty history, after any sequence of
`echo_msg_save` calls, and after any sequence of directives given to `echo_msg_process`
(whatever the fate of each call), the history list holds at most one entry for each
digest. -/
theorem history_key_uniqueness :
    (∀ (msg : echo_msg) (saves : List (Fate × echo_msg_fp)), msg.history = [] →
      ∀ d, entries_with d (save_all msg saves).history ≤ 1) ∧
    (∀ (S : Sys) (c : connection_t) (calls : List Call), c.echo_msg.history = [] →
      ∀ d, entries_with d (run S c calls).1.echo_msg.history ≤ 1) := by
  constructor
  · intro msg saves h
    rw [entries_with_le_one_iff]
    exact save_all_nodup saves msg (by simp [h])
  · intro S c calls h
    rw [entries_with_le_one_iff]
    exact run_nodup S calls c (by simp [h])

theorem history_key_uniqueness_witness :
    entries_with (message_digest (asciiSys 1 7) (L "Hello" ++ CRLF) (L "Alert"))
      (run (asciiSys 1 7) fresh
        [⟨lucky, 1000, "msg Hello".toList⟩, ⟨lucky, 1000, "msg-window Alert".toList⟩,
         ⟨lucky, 5000, "msg Hello".toList⟩, ⟨lucky, 5000, "msg-window Alert".toList⟩]
      ).1.echo_msg.history ≤ 1 ∧
    entries_with 5 (save_all fresh.echo_msg
      [(lucky, ⟨5, 10⟩), (lucky, ⟨6, 20⟩), (lucky, ⟨5, 30⟩)]).history ≤ 1 :=
  ⟨history_key_uniqueness.2 (asciiSys 1 7) fresh _ rfl _,
   history_key_uniqueness.1 fresh.echo_msg _ rfl 5⟩

/-- Counterexample to claim C6 as stated: on a connection with echo messages enabled, with
the message window missing (`echo_msg_window` null), `msg-window Alert` for the pending
message `Hello` is not a repeat, and still the window surface receives no call (while the
history records the message). -/
theorem finalize_without_window_no_call :
    (run (asciiSys 1 0) fresh [⟨lucky, 1000, "msg Hello".toList⟩]).1.flags &&&
        (asciiSys 1 0).FLAG_DISABLE_ECHO_MSG = 0 ∧
    echo_msg_repeated (asciiSys 1 0)
        (finalized (asciiSys 1 0) lucky
          (run (asciiSys 1 0) fresh [⟨lucky, 1000, "msg Hello".toList⟩]).1
          1000 "Alert".toList) = false ∧
    surface_calls (echo_msg_process (asciiSys 1 0) lucky
        (run (asciiSys 1 0) fresh [⟨lucky, 1000, "msg Hello".toList⟩]).1
        1000 "msg-window Alert".toList).2 = [] ∧
    (echo_msg_process (asciiSys 1 0) lucky
        (run (asciiSys 1 0) fresh [⟨lucky, 1000, "msg Hello".toList⟩]).1
        1000 "msg-window Alert".toList).1.echo_msg.history =
      [⟨message_digest (asciiSys 1 0) (L "Hello" ++ CRLF) (L "Alert"), 1000⟩] := by
  decide

/-- Claim C6, amended. For every finalize directive on a connection with echo messages
enabled whose message is not repeated, provided the title is widened, the message window
exists when the directive is `msg-window`, and a history node can be allocated when the
digest is not in the history yet: the events of the call are exactly one call to the chosen
surface (window for `msg-window`, notification for `msg-notify`) carrying the remainder of
the directive as title and the accumulated text as body, and afterwards the first history
entry with the digest of the message is that digest with the timestamp of the directive (the
digest being that of body and title when the digest primitive is available). In particular,
when the window exists, `msg Hello` then `msg-window Alert` at t=1000 on a fresh connection
delivers title `Alert`, body `Hello` CR LF to the window and leaves exactly one history
entry, with timestamp 1000. -/
theorem finalize_shows_and_records :
    (∀ (S : Sys) (f : Fate) (c : connection_t) (t : Int) (raw : List Char) (sf : Surface)
        (title : List Char) (wt : List WCHAR),
        S.url_decode raw = some (sf.line title) → S.Widen title = some wt →
        c.flags &&& S.FLAG_DISABLE_ECHO_MSG = 0 →
        echo_msg_repeated S (finalized S f c t title) = false →
        (sf = Surface.window → S.echo_msg_window ≠ 0) →
        (f.malloc_ok = true ∨
          first_entry (finalized S f c t title).fp.digest c.echo_msg.history ≠ none) →
        (echo_msg_process S f c t raw).2 = [sf.call S wt c.echo_msg.text] ∧
        first_entry (finalized S f c t title).fp.digest
            (echo_msg_process S f c t raw).1.echo_msg.history =
          some ⟨(finalized S f c t title).fp.digest, t⟩ ∧
        (f.md_init_ok = true →
          (finalized S f c t title).fp.digest = message_digest S (body c) wt)) ∧
    (∀ (S : Sys) (wh wa : List WCHAR),
        S.url_decode "msg Hello".toList = some "msg Hello".toList →
        S.url_decode "msg-window Alert".toList = some "msg-window Alert".toList →
        S.Widen "Hello".toList = some wh → S.Widen "Alert".toList = some wa →
        S.echo_msg_window ≠ 0 →
        run S fresh [⟨lucky, 1000, "msg Hello".toList⟩, ⟨lucky, 1000, "msg-window Alert".toList⟩] =
          (⟨0, ⟨⟨0, 0⟩, none, none, 0, [⟨message_digest S (wh ++ CRLF) wa, 1000⟩]⟩⟩,
            [Event.AddMessageBoxText S.echo_msg_window (some (wh ++ CRLF)) (some wa)])) := by
  constructor
  · intro S f c t raw sf title wt hdec hw hen hrep hwin hmalloc
    have hwt : wide_title S title = wt := by rw [wide_title, hw]; rfl
    have hlog : title_log S title = [] := by rw [title_log, hw]; rfl
    have hnm : ¬ muted S f c t title := by
      unfold muted
      simp [hen, hrep]
    rw [process_finalize_eq S f c t raw sf title hdec, if_neg hnm, hlog,
      presented_eq S c title sf hwin, hwt]
    refine ⟨rfl, ?_, ?_⟩
    · have hs := first_entry_save_same f (finalized S f c t title)
        (by rw [(finalized_frame S f c t title).2.2.2.1]; exact hmalloc)
      have hts := (finalized_frame S f c t title).2.2.2.2
      simp only [hs]
      congr 1
      cases hfp : (finalized S f c t title).fp with
      | mk d ts => rw [hfp] at hts; simp only at hts; rw [hts]
    · intro hmd
      rw [finalized_fp S f c t title hmd, hwt]
  · intro S wh wa hd1 hd2 hw1 hw2 hwin
    show run S ⟨0, ⟨⟨0, 0⟩, none, none, 0, []⟩⟩ _ = _
    rw [hello_alert_cycle S wh wa [] 1000 hd1 hd2 hw1 hw2 hwin]
    simp [first_entry_nil, echo_msg_save, echo_msg_recall, echo_msg_history_add, lucky]

theorem finalize_shows_and_records_witness :
    run (asciiSys 1 7) fresh
        [⟨lucky, 1000, "msg Hello".toList⟩, ⟨lucky, 1000, "msg-window Alert".toList⟩] =
      (⟨0, ⟨⟨0, 0⟩, none, none, 0,
          [⟨message_digest (asciiSys 1 7) (L "Hello" ++ CRLF) (L "Alert"), 1000⟩]⟩⟩,
        [Event.AddMessageBoxText 7 (some (L "Hello\r\n")) (some (L "Alert"))]) ∧
    (echo_msg_process (asciiSys 1 7) lucky
        ⟨0, ⟨⟨0, 0⟩, none, some (L "Partialrest\r\n"), 13, []⟩⟩ 1000 "msg-notify T".toList).2 =
      [Event.ShowTrayBalloon (some (L "T")) (some (L "Partialrest\r\n"))] :=
  ⟨finalize_shows_and_records.2 (asciiSys 1 7) (L "Hello") (L "Alert") rfl rfl rfl rfl
      (by decide),
   (finalize_shows_and_records.1 (asciiSys 1 7) lucky
      ⟨0, ⟨⟨0, 0⟩, none, some (L "Partialrest\r\n"), 13, []⟩⟩ 1000 "msg-notify T".toList
      Surface.notify "T".toList (L "T") rfl rfl (by decide) (by decide) (by decide)
      (Or.inl rfl)).1⟩

/-! ## The dispatcher -/

theorem strbegins_eq_true_iff (msg : List Char) (p : String) :
    strbegins msg p = true ↔ begins_with p msg := by
  simp only [strbegins, begins_with, List.isPrefixOf_iff_prefix]

theorem streq_eq_true_iff (msg : List Char) (p : String) :
    streq msg p = true ↔ msg = p.toList := by
  simp [streq]

/-- A line that has none of the five directive forms only draws the warning. -/
theorem process_unknown (S : Sys) (f : Fate) (c : connection_t) (t : Int) (raw msg : List Char)
    (hdec : S.url_decode raw = some msg) (hno : ¬ is_directive msg) :
    echo_msg_process S f c t raw = (c, [unknown_directive msg]) := by
  unfold is_directive at hno
  simp only [not_or] at hno
  obtain ⟨h1, h2, h3, h4, h5⟩ := hno
  simp only [← strbegins_eq_true_iff, ← streq_eq_true_iff] at h1 h2 h3 h4 h5
  simp only [echo_msg_process, hdec, h1, h2, h3, h4, h5]
  simp

/-- Claim C7 (directive classification). For every line that decodes successfully,
`echo_msg_process` performs the one action the line determines: a line `msg ` + r appends r
with a line break; the line `msg` appends the empty fragment with a line break; a line
`msg-n ` + r appends r without a line break; a line `msg-window ` + r finalizes with title r
on the window surface and then resets the pending message; a line `msg-notify ` + r does the
same on the notification surface; any other line only writes the unknown-directive warning
to the log. -/
theorem directive_classification (S : Sys) (f : Fate) (c : connection_t) (t : Int)
    (raw msg : List Char) (hdec : S.url_decode raw = some msg) :
    (∀ r, msg = "msg ".toList ++ r →
      echo_msg_process S f c t raw = echo_msg_append S f c t r true) ∧
    (msg = "msg".toList →
      echo_msg_process S f c t raw = echo_msg_append S f c t [] true) ∧
    (∀ r, msg = "msg-n ".toList ++ r →
      echo_msg_process S f c t raw = echo_msg_append S f c t r false) ∧
    (∀ r, msg = "msg-window ".toList ++ r →
      echo_msg_process S f c t raw =
        (echo_msg_clear (echo_msg_display S f c t r ECHO_MSG_WINDOW).1 false,
          (echo_msg_display S f c t r ECHO_MSG_WINDOW).2)) ∧
    (∀ r, msg = "msg-notify ".toList ++ r →
      echo_msg_process S f c t raw =
        (echo_msg_clear (echo_msg_display S f c t r ECHO_MSG_NOTIFY).1 false,
          (echo_msg_display S f c t r ECHO_MSG_NOTIFY).2)) ∧
    (¬ is_directive msg →
      echo_msg_process S f c t raw = (c, [unknown_directive msg]) ∧
      log_lines (echo_msg_process S f c t raw).2 = [unknown_directive msg]) := by
  refine ⟨?_, ?_, ?_, ?_, ?_, ?_⟩
  · rintro r rfl
    simp [echo_msg_process, hdec, strbegins, toList_msg_sp]
  · rintro rfl
    simp [echo_msg_process, hdec, strbegins, streq, toList_msg_sp, toList_msg, List.isPrefixOf]
  · rintro r rfl
    simp [echo_msg_process, hdec, strbegins, streq, toList_msg_sp, toList_msg, toList_msg_n,
      List.isPrefixOf]
  · rintro r rfl
    exact process_finalize S f c t raw Surface.window r hdec
  · rintro r rfl
    exact process_finalize S f c t raw Surface.notify r hdec
  · intro hno
    rw [process_unknown S f c t raw msg hdec hno]
    exact ⟨rfl, rfl⟩

theorem directive_classification_witness :
    echo_msg_process (asciiSys 1 7) lucky fresh 1000 "msg-n Partial".toList =
      echo_msg_append (asciiSys 1 7) lucky fresh 1000 "Partial".toList false ∧
    echo_msg_process (asciiSys 1 7) lucky fresh 1000 "msg".toList =
      echo_msg_append (asciiSys 1 7) lucky fresh 1000 [] true ∧
    echo_msg_process (asciiSys 1 7) lucky fresh 1000 "msg-notify T".toList =
      (echo_msg_clear (echo_msg_display (asciiSys 1 7) lucky fresh 1000 "T".toList
          ECHO_MSG_NOTIFY).1 false,
        (echo_msg_display (asciiSys 1 7) lucky fresh 1000 "T".toList ECHO_MSG_NOTIFY).2) :=
  ⟨(directive_classification (asciiSys 1 7) lucky fresh 1000 "msg-n Partial".toList
      "msg-n Partial".toList rfl).2.2.1 "Partial".toList rfl,
   (directive_classification (asciiSys 1 7) lucky fresh 1000 "msg".toList
      "msg".toList rfl).2.1 rfl,
   (directive_classification (asciiSys 1 7) lucky fresh 1000 "msg-notify T".toList
      "msg-notify T".toList rfl).2.2.2.2.1 "T".toList rfl⟩

/-- Claim C8 (unrecognized directive). For every line that decodes to something with none of
the five directive forms, `echo_msg_process` returns the connection state unchanged, calls
no presentation surface and writes exactly one line, the warning, to the log; the directives
that follow behave as if the line had never been received: the run ends in the same state
and emits the same events, after the one warning. The lines `foo bar`, `msg-n`, `msg-window`,
`msg-notify` (without trailing blank) and `msgX` are such lines. -/
theorem unrecognized_directive (S : Sys) (f : Fate) (c : connection_t) (t : Int)
    (raw msg : List Char) (hdec : S.url_decode raw = some msg) (hno : ¬ is_directive msg) :
    (echo_msg_process S f c t raw).1 = c ∧
    surface_calls (echo_msg_process S f c t raw).2 = [] ∧
    (echo_msg_process S f c t raw).2 = [unknown_directive msg] ∧
    log_lines (echo_msg_process S f c t raw).2 = [unknown_directive msg] ∧
    (∀ rest : List Call,
      run S c (⟨f, t, raw⟩ :: rest) = ((run S c rest).1, unknown_directive msg :: (run S c rest).2)) ∧
    (∀ m ∈ ["foo bar", "msg-n", "msg-window", "msg-notify", "msgX"], ¬ is_directive m.toList) := by
  have h := process_unknown S f c t raw msg hdec hno
  refine ⟨by rw [h], by rw [h]; rfl, by rw [h], by rw [h]; rfl, ?_, by decide⟩
  intro rest
  simp only [run, h, List.singleton_append]

theorem unrecognized_directive_witness :
    echo_msg_process (asciiSys 1 7) lucky fresh 1000 "foo bar".toList =
      (fresh, [Event.WriteStatusLog "GUI> " "WARNING: Unknown ECHO directive '%hs' ignored."
        (some "foo bar".toList)]) ∧
    run (asciiSys 1 7) fresh [⟨lucky, 1000, "msg-window".toList⟩, ⟨lucky, 1001, "msg Hello".toList⟩] =
      ((run (asciiSys 1 7) fresh [⟨lucky, 1001, "msg Hello".toList⟩]).1,
        unknown_directive "msg-window".toList ::
          (run (asciiSys 1 7) fresh [⟨lucky, 1001, "msg Hello".toList⟩]).2) :=
  ⟨Prod.ext
      (unrecognized_directive (asciiSys 1 7) lucky fresh 1000 "foo bar".toList "foo bar".toList
        rfl (by decide)).1
      (unrecognized_directive (asciiSys 1 7) lucky fresh 1000 "foo bar".toList "foo bar".toList
        rfl (by decide)).2.2.1,
   (unrecognized_directive (asciiSys 1 7) lucky fresh 1000 "msg-window".toList
      "msg-window".toList rfl (by decide)).2.2.2.2.1 _⟩

/-! ## The fingerprint -/

/-- With the digest primitive available, `echo_msg_add_fp` stores the digest of the bytes of
the text followed by the bytes of the title. -/
theorem add_fp_digest (S : Sys) (f : Fate) (msg : echo_msg) (t : Int)
    (hmd : f.md_init_ok = true) :
    (echo_msg_add_fp S f msg t).fp.digest =
      message_digest S ((msg.text.getD []).take msg.txtlen) (msg.title.getD []) := by
  simp [echo_msg_add_fp, md_init, hmd, md_update, md_final, message_digest, wcslen]

/-- Claim C9 (fingerprint determinism), amended. For any two pending messages with identical
text and identical title, `echo_msg_add_fp` produces identical digests whatever timestamps
are supplied when `md_init` succeeds in both calls, and in every case the timestamp it
stores is exactly the one supplied. -/
theorem fingerprint_determinism (S : Sys) (f1 f2 : Fate) (m1 m2 : echo_msg) (t1 t2 : Int)
    (htext : (m1.text.getD []).take m1.txtlen = (m2.text.getD []).take m2.txtlen)
    (htitle : m1.title = m2.title) :
    (f1.md_init_ok = true → f2.md_init_ok = true →
      (echo_msg_add_fp S f1 m1 t1).fp.digest = (echo_msg_add_fp S f2 m2 t2).fp.digest) ∧
    (echo_msg_add_fp S f1 m1 t1).fp.timestamp = t1 ∧
    (echo_msg_add_fp S f2 m2 t2).fp.timestamp = t2 := by
  refine ⟨?_, (add_fp_frame S f1 m1 t1).2.2.2.2, (add_fp_frame S f2 m2 t2).2.2.2.2⟩
  intro hmd1 hmd2
  rw [add_fp_digest S f1 m1 t1 hmd1, add_fp_digest S f2 m2 t2 hmd2, htext, htitle]

theorem fingerprint_determinism_witness :
    (echo_msg_add_fp (asciiSys 1 7) lucky
        ⟨⟨0, 0⟩, some (L "Alert"), some (L "Hello\r\n"), 7, []⟩ 1000).fp.digest =
      (echo_msg_add_fp (asciiSys 1 7) lucky
        ⟨⟨3, 77⟩, some (L "Alert"), some (L "Hello\r\n"), 7, [⟨3, 77⟩]⟩ 5000).fp.digest ∧
    (echo_msg_add_fp (asciiSys 1 7) lucky
        ⟨⟨0, 0⟩, some (L "Alert"), some (L "Hello\r\n"), 7, []⟩ 1000).fp.timestamp = 1000 ∧
    (echo_msg_add_fp (asciiSys 1 7) lucky
        ⟨⟨3, 77⟩, some (L "Alert"), some (L "Hello\r\n"), 7, [⟨3, 77⟩]⟩ 5000).fp.timestamp = 5000 :=
  ⟨(fingerprint_determinism (asciiSys 1 7) lucky lucky
      ⟨⟨0, 0⟩, some (L "Alert"), some (L "Hello\r\n"), 7, []⟩
      ⟨⟨3, 77⟩, some (L "Alert"), some (L "Hello\r\n"), 7, [⟨3, 77⟩]⟩ 1000 5000 rfl rfl).1
      rfl rfl,
   (fingerprint_determinism (asciiSys 1 7) lucky lucky
      ⟨⟨0, 0⟩, some (L "Alert"), some (L "Hello\r\n"), 7, []⟩
      ⟨⟨3, 77⟩, some (L "Alert"), some (L "Hello\r\n"), 7, [⟨3, 77⟩]⟩ 1000 5000 rfl rfl).2⟩

theorem wbytes_append (a b : List WCHAR) : wbytes (a ++ b) = wbytes a ++ wbytes b := by
  simp [wbytes]

theorem two_bytes_inj (x y : Nat) (hx : x < 65536) (hy : y < 65536)
    (h1 : x % 256 = y % 256) (h2 : x / 256 % 256 = y / 256 % 256) : x = y := by
  omega

/-- On 16-bit code units the byte representation determines the characters. -/
theorem wbytes_injective (a : List WCHAR) :
    ∀ b : List WCHAR, (∀ w ∈ a, w < 65536) → (∀ w ∈ b, w < 65536) →
      wbytes a = wbytes b → a = b := by
  induction a with
  | nil =>
    intro b _ _ h
    cases b with
    | nil => rfl
    | cons y b => simp [wbytes] at h
  | cons x a ih =>
    intro b ha hb h
    cases b with
    | nil => simp [wbytes] at h
    | cons y b =>
      simp only [wbytes, List.flatMap_cons, List.cons_append, List.nil_append, List.cons.injEq]
        at h
      obtain ⟨h1, h2, h3⟩ := h
      have hx : (x : Nat) < 65536 := ha x (List.mem_cons_self _ _)
      have hy : (y : Nat) < 65536 := hb y (List.mem_cons_self _ _)
      have hxy : x = y := two_bytes_inj x y hx hy h1 h2
      have := ih b (fun w hw => ha w (List.mem_cons_of_mem _ hw))
        (fun w hw => hb w (List.mem_cons_of_mem _ hw)) h3
      rw [hxy, this]

/-- Counterexample to claim C10 as stated: the pending messages with text `a`, title `b` and
with text `ab`, empty title differ in text and in title, yet feed the same bytes to the
digest, so `echo_msg_add_fp` gives them the same digest; and after `msg-n a`,
`msg-window b` was shown, the different message `msg-n ab`, `msg-window ` is muted as a
repeat. -/
theorem different_messages_same_digest :
    (L "a" ≠ L "ab" ∧ L "b" ≠ L "") ∧
    wbytes (L "a") ++ wbytes (L "b") = wbytes (L "ab") ++ wbytes (L "") ∧
    (echo_msg_add_fp (asciiSys 1 7) lucky ⟨⟨0, 0⟩, some (L "b"), some (L "a"), 1, []⟩ 1000).fp.digest =
      (echo_msg_add_fp (asciiSys 1 7) lucky ⟨⟨0, 0⟩, some (L ""), some (L "ab"), 2, []⟩ 1000).fp.digest ∧
    (run (asciiSys 1 7) fresh
        [⟨lucky, 1000, "msg-n a".toList⟩, ⟨lucky, 1000, "msg-window b".toList⟩,
         ⟨lucky, 1001, "msg-n ab".toList⟩, ⟨lucky, 1001, "msg-window ".toList⟩]).2 =
      [Event.AddMessageBoxText 7 (some (L "a")) (some (L "b"))] := by
  decide

/-- Claim C10, amended. For any two pending messages made of 16-bit code units, with the
digest primitive available: if the characters of the text followed by those of the title
differ between the two messages, and the digest function does not collide on the two byte
streams, `echo_msg_add_fp` produces different digests. -/
theorem fingerprint_sensitivity (S : Sys) (f1 f2 : Fate) (m1 m2 : echo_msg) (t1 t2 : Int)
    (hmd1 : f1.md_init_ok = true) (hmd2 : f2.md_init_ok = true)
    (h16a : ∀ w ∈ (m1.text.getD []).take m1.txtlen ++ m1.title.getD [], w < 65536)
    (h16b : ∀ w ∈ (m2.text.getD []).take m2.txtlen ++ m2.title.getD [], w < 65536)
    (hdiff : (m1.text.getD []).take m1.txtlen ++ m1.title.getD [] ≠
        (m2.text.getD []).take m2.txtlen ++ m2.title.getD [])
    (hnocollision :
      S.sha1 (wbytes ((m1.text.getD []).take m1.txtlen ++ m1.title.getD [])) =
        S.sha1 (wbytes ((m2.text.getD []).take m2.txtlen ++ m2.title.getD [])) →
      wbytes ((m1.text.getD []).take m1.txtlen ++ m1.title.getD []) =
        wbytes ((m2.text.getD []).take m2.txtlen ++ m2.title.getD [])) :
    (echo_msg_add_fp S f1 m1 t1).fp.digest ≠ (echo_msg_add_fp S f2 m2 t2).fp.digest := by
  rw [add_fp_digest S f1 m1 t1 hmd1, add_fp_digest S f2 m2 t2 hmd2]
  unfold message_digest
  rw [← wbytes_append, ← wbytes_append]
  intro heq
  exact hdiff (wbytes_injective _ _ h16a h16b (hnocollision heq))

theorem fingerprint_sensitivity_witness :
    (echo_msg_add_fp (asciiSys 1 7) lucky
        ⟨⟨0, 0⟩, some (L "Alert"), some (L "Hello\r\n"), 7, []⟩ 1000).fp.digest ≠
      (echo_msg_add_fp (asciiSys 1 7) lucky
        ⟨⟨0, 0⟩, some (L "Alert"), some (L "Hullo\r\n"), 7, []⟩ 1000).fp.digest :=
  fingerprint_sensitivity (asciiSys 1 7) lucky lucky
    ⟨⟨0, 0⟩, some (L "Alert"), some (L "Hello\r\n"), 7, []⟩
    ⟨⟨0, 0⟩, some (L "Alert"), some (L "Hullo\r\n"), 7, []⟩ 1000 1000 rfl rfl
    (by decide) (by decide) (by decide) (by decide)

/-! ## Frames of the accumulator and the dispatcher -/

/-- The call `echo_msg_append` touches the pending text and its length only, whatever the
outcome of widening and of the buffer growth, and calls no surface. -/
theorem append_frame (S : Sys) (f : Fate) (c : connection_t) (t : Int) (msg : List Char)
    (addnl : Bool) :
    (echo_msg_append S f c t msg addnl).1.flags = c.flags ∧
    (echo_msg_append S f c t msg addnl).1.echo_msg.fp = c.echo_msg.fp ∧
    (echo_msg_append S f c t msg addnl).1.echo_msg.title = c.echo_msg.title ∧
    (echo_msg_append S f c t msg addnl).1.echo_msg.history = c.echo_msg.history ∧
    surface_calls (echo_msg_append S f c t msg addnl).2 = [] := by
  unfold echo_msg_append
  cases S.Widen msg with
  | none => exact ⟨rfl, rfl, rfl, rfl, rfl⟩
  | some w =>
    simp only
    split
    · exact ⟨rfl, rfl, rfl, rfl, rfl⟩
    · exact ⟨rfl, rfl, rfl, rfl, rfl⟩

theorem display_flags (S : Sys) (f : Fate) (c : connection_t) (t : Int) (title : List Char)
    (type : Nat) : (echo_msg_display S f c t title type).1.flags = c.flags := by
  rw [display_eq]
  split <;> rfl

/-- No call of `echo_msg_process` changes the flags of the connection. -/
theorem process_flags (S : Sys) (f : Fate) (c : connection_t) (t : Int) (raw : List Char) :
    (echo_msg_process S f c t raw).1.flags = c.flags := by
  unfold echo_msg_process
  cases S.url_decode raw with
  | none => rfl
  | some msg =>
    simp only
    split_ifs
    · exact (append_frame ..).1
    · exact (append_frame ..).1
    · exact (append_frame ..).1
    · simp [echo_msg_clear, display_flags]
    · simp [echo_msg_clear, display_flags]
    · rfl

theorem run_flags (S : Sys) (calls : List Call) :
    ∀ c : connection_t, (run S c calls).1.flags = c.flags := by
  induction calls with
  | nil => intro c; rfl
  | cons x rest ih =>
    intro c
    simp only [run]
    rw [ih, process_flags]

/-- An unset pending fingerprint stays unset through every call of `echo_msg_process`. -/
theorem process_fp_unset (S : Sys) (f : Fate) (c : connection_t) (t : Int) (raw : List Char)
    (h : c.echo_msg.fp = ⟨0, 0⟩) : (echo_msg_process S f c t raw).1.echo_msg.fp = ⟨0, 0⟩ := by
  unfold echo_msg_process
  cases S.url_decode raw with
  | none => exact h
  | some msg =>
    simp only
    split_ifs
    · rw [(append_frame ..).2.1]; exact h
    · rw [(append_frame ..).2.1]; exact h
    · rw [(append_frame ..).2.1]; exact h
    · simp [echo_msg_clear]
    · simp [echo_msg_clear]
    · exact h

theorem run_fp_unset (S : Sys) (calls : List Call) :
    ∀ c : connection_t, c.echo_msg.fp = ⟨0, 0⟩ → (run S c calls).1.echo_msg.fp = ⟨0, 0⟩ := by
  induction calls with
  | nil => intro c h; exact h
  | cons x rest ih =>
    intro c h
    simp only [run]
    exact ih _ (process_fp_unset S x.fate c x.timestamp x.line h)

/-- Without the digest primitive the fingerprint keeps the digest it had and takes the
timestamp supplied. -/
theorem finalized_fp_failed (S : Sys) (f : Fate) (c : connection_t) (t : Int)
    (title : List Char) (hmd : f.md_init_ok = false) :
    (finalized S f c t title).fp = ⟨c.echo_msg.fp.digest, t⟩ := by
  simp [finalized, echo_msg_add_fp, md_init, hmd]

/-! ## Save semantics -/

/-- Reading the list after a timestamp was written through a pointer: the node written has
the new timestamp and its old digest, every other node is as before. -/
theorem store_timestamp_getElem (hist : List echo_msg_fp) (i : Nat) (ts : Int) :
    ∀ j, (store_timestamp hist i ts)[j]? =
      if j = i then (hist[j]?).map (fun e => { e with timestamp := ts }) else hist[j]? := by
  induction hist generalizing i with
  | nil => intro j; simp [store_timestamp]
  | cons x rest ih =>
    intro j
    cases i with
    | zero =>
      cases j with
      | zero => simp [store_timestamp]
      | succ k => simp [store_timestamp]
    | succ n =>
      cases j with
      | zero => simp [store_timestamp]
      | succ k => simp [store_timestamp, ih n k]

/-- Claim C12 (save semantics). For every history list and fingerprint: after
`echo_msg_save`, `echo_msg_recall` of the digest of the fingerprint finds an entry whose
timestamp is that of the fingerprint (a node being allocated when the digest is new); if the
digest was present, the list keeps its length and order and only the entry found changes,
in its timestamp; if it was absent (and the node is allocated) the fingerprint is placed at
the head and all previous entries follow unchanged; the lookup of every other digest gives
the same entry as before. -/
theorem save_semantics (f : Fate) (msg : echo_msg) :
    ((f.malloc_ok = true ∨ echo_msg_recall msg.fp.digest msg.history ≠ none) →
      ∃ i e, echo_msg_recall msg.fp.digest (echo_msg_save f msg).history = some i ∧
        (echo_msg_save f msg).history[i]? = some e ∧ e.digest = msg.fp.digest ∧
        e.timestamp = msg.fp.timestamp) ∧
    (∀ i, echo_msg_recall msg.fp.digest msg.history = some i →
      (echo_msg_save f msg).history.length = msg.history.length ∧
      (echo_msg_save f msg).history.map echo_msg_fp.digest =
        msg.history.map echo_msg_fp.digest ∧
      ∀ j, (echo_msg_save f msg).history[j]? =
        if j = i then (msg.history[j]?).map (fun e => { e with timestamp := msg.fp.timestamp })
        else msg.history[j]?) ∧
    (echo_msg_recall msg.fp.digest msg.history = none → f.malloc_ok = true →
      (echo_msg_save f msg).history = msg.fp :: msg.history) ∧
    (∀ d2, d2 ≠ msg.fp.digest →
      first_entry d2 (echo_msg_save f msg).history = first_entry d2 msg.history) := by
  refine ⟨?_, ?_, ?_, ?_⟩
  · intro h
    have hsome : first_entry msg.fp.digest (echo_msg_save f msg).history = some msg.fp := by
      apply first_entry_save_same
      rcases h with h | h
      · exact Or.inl h
      · exact Or.inr (fun hn => h ((recall_eq_none_iff _ _).2 hn))
    cases hr : echo_msg_recall msg.fp.digest (echo_msg_save f msg).history with
    | none =>
      rw [(recall_eq_none_iff _ _).1 hr] at hsome
      cases hsome
    | some i =>
      unfold first_entry at hsome
      rw [hr] at hsome
      exact ⟨i, msg.fp, rfl, hsome, rfl, rfl⟩
  · intro i hi
    simp only [echo_msg_save, hi]
    exact ⟨store_timestamp_length _ _ _, store_timestamp_digests _ _ _,
      store_timestamp_getElem _ _ _⟩
  · intro hn hm
    simp [echo_msg_save, hn, echo_msg_history_add, hm]
  · intro d2 hd
    exact first_entry_save_other f msg d2 hd

theorem save_semantics_witness :
    (echo_msg_save lucky ⟨⟨5, 30⟩, none, none, 0, [⟨6, 20⟩, ⟨5, 10⟩]⟩).history =
      [⟨6, 20⟩, ⟨5, 30⟩] ∧
    (echo_msg_save lucky ⟨⟨7, 30⟩, none, none, 0, [⟨6, 20⟩, ⟨5, 10⟩]⟩).history =
      [⟨7, 30⟩, ⟨6, 20⟩, ⟨5, 10⟩] ∧
    first_entry 6 (echo_msg_save lucky ⟨⟨5, 30⟩, none, none, 0, [⟨6, 20⟩, ⟨5, 10⟩]⟩).history =
      some ⟨6, 20⟩ := by
  have h := save_semantics lucky ⟨⟨5, 30⟩, none, none, 0, [⟨6, 20⟩, ⟨5, 10⟩]⟩
  have h2 := save_semantics lucky ⟨⟨7, 30⟩, none, none, 0, [⟨6, 20⟩, ⟨5, 10⟩]⟩
  refine ⟨?_, h2.2.2.1 (by decide) rfl, h.2.2.2 6 (by decide)⟩
  have hj := (h.2.1 1 (by decide)).2.2
  apply List.ext_getElem?
  intro j
  rw [hj j]
  rcases j with _ | _ | j <;> simp

/-- An accumulating directive reaches `echo_msg_append` with its fragment and its line-break
flag, whatever happens there. -/
theorem process_append_directive (S : Sys) (f : Fate) (c : connection_t) (t : Int)
    (raw : List Char) (d : AppendDirective) (hdec : S.url_decode raw = some d.line) :
    echo_msg_process S f c t raw = echo_msg_append S f c t d.fragment d.addLineBreak := by
  cases d with
  | msg txt =>
    simp [echo_msg_process, hdec, AppendDirective.line, AppendDirective.fragment,
      AppendDirective.addLineBreak, strbegins, toList_msg_sp]
  | msg_bare =>
    simp [echo_msg_process, hdec, AppendDirective.line, AppendDirective.fragment,
      AppendDirective.addLineBreak, strbegins, streq, toList_msg_sp, toList_msg,
      List.isPrefixOf]
  | msg_n txt =>
    simp [echo_msg_process, hdec, AppendDirective.line, AppendDirective.fragment,
      AppendDirective.addLineBreak, strbegins, streq, toList_msg_sp, toList_msg, toList_msg_n,
      List.isPrefixOf]

/-- A failed append returns the connection as it was, with one line in the log. -/
theorem append_failed (S : Sys) (f : Fate) (c : connection_t) (t : Int) (msg : List Char)
    (addnl : Bool) (hfail : S.Widen msg = none ∨ f.realloc_ok = false) :
    echo_msg_append S f c t msg addnl = (c, [append_oom]) := by
  unfold echo_msg_append
  cases hw : S.Widen msg with
  | none => rfl
  | some w =>
    rcases hfail with h | h
    · rw [hw] at h; cases h
    · simp [h]

/-- Claim C13 (failure atomicity). If URL-decoding of the raw line fails, `echo_msg_process`
leaves the whole connection state unchanged and calls no surface. If, for a `msg`, bare
`msg` or `msg-n` directive, widening of the fragment fails or the buffer cannot be grown, the
connection state, and with it the pending text and `txtlen`, is exactly what it was, and a
later successful append continues after the content accumulated before. -/
theorem failure_atomicity (S : Sys) (f : Fate) (c : connection_t) (t : Int) (raw : List Char) :
    (S.url_decode raw = none →
      (echo_msg_process S f c t raw).1 = c ∧
      surface_calls (echo_msg_process S f c t raw).2 = []) ∧
    (∀ d : AppendDirective, S.url_decode raw = some d.line →
      (S.Widen d.fragment = none ∨ f.realloc_ok = false) →
      (echo_msg_process S f c t raw).1 = c ∧
      (echo_msg_process S f c t raw).1.echo_msg.text = c.echo_msg.text ∧
      (echo_msg_process S f c t raw).1.echo_msg.txtlen = c.echo_msg.txtlen ∧
      surface_calls (echo_msg_process S f c t raw).2 = [] ∧
      ∀ (S2 : Sys) (a : AppendCall), a.succeeds S2 → text_wf c →
        (echo_msg_process S2 a.fate (echo_msg_process S f c t raw).1 a.timestamp
            a.raw).1.echo_msg.text = some (c.echo_msg.text.getD [] ++ a.piece) ∧
        (echo_msg_process S2 a.fate (echo_msg_process S f c t raw).1 a.timestamp
            a.raw).1.echo_msg.txtlen = c.echo_msg.txtlen + a.piece.length) := by
  constructor
  · intro hdec
    simp [echo_msg_process, hdec, surface_calls, Event.isSurface]
  · intro d hdec hfail
    have h : echo_msg_process S f c t raw = (c, [append_oom]) := by
      rw [process_append_directive S f c t raw d hdec]
      exact append_failed S f c t _ _ hfail
    rw [h]
    refine ⟨rfl, rfl, rfl, rfl, ?_⟩
    intro S2 a hok hwf
    rw [process_append_ok S2 c a hok hwf]
    exact ⟨rfl, rfl⟩

theorem failure_atomicity_witness :
    (echo_msg_process (asciiSys 1 7) ⟨true, false, true⟩
        ⟨0, ⟨⟨0, 0⟩, none, some (L "Partial"), 7, []⟩⟩ 1000 "msg rest".toList).1 =
      ⟨0, ⟨⟨0, 0⟩, none, some (L "Partial"), 7, []⟩⟩ ∧
    (echo_msg_process (asciiSys 1 7) lucky
        (echo_msg_process (asciiSys 1 7) ⟨true, false, true⟩
          ⟨0, ⟨⟨0, 0⟩, none, some (L "Partial"), 7, []⟩⟩ 1000 "msg rest".toList).1
        1001 "msg rest".toList).1.echo_msg.text = some (L "Partialrest\r\n") :=
  ⟨((failure_atomicity (asciiSys 1 7) ⟨true, false, true⟩
      ⟨0, ⟨⟨0, 0⟩, none, some (L "Partial"), 7, []⟩⟩ 1000 "msg rest".toList).2
      (.msg "rest".toList) rfl (Or.inr rfl)).1,
   ((((failure_atomicity (asciiSys 1 7) ⟨true, false, true⟩
      ⟨0, ⟨⟨0, 0⟩, none, some (L "Partial"), 7, []⟩⟩ 1000 "msg rest".toList).2
      (.msg "rest".toList) rfl (Or.inr rfl)).2.2.2.2 (asciiSys 1 7)
      ⟨lucky, 1001, "msg rest".toList, .msg "rest".toList, L "rest"⟩
      ⟨rfl, rfl, rfl⟩ rfl).1)⟩

/-- Claim C14 (append frame). For every connection state, every fate and every line that
decodes to `msg <text>`, bare `msg` or `msg-n <text>`, `echo_msg_process` changes the pending
text and `txtlen` only: the flags, the history list, the pending title and the pending
fingerprint are unchanged and no presentation surface is called. -/
theorem append_changes_text_only (S : Sys) (f : Fate) (c : connection_t) (t : Int)
    (raw : List Char) (d : AppendDirective) (hdec : S.url_decode raw = some d.line) :
    (echo_msg_process S f c t raw).1.flags = c.flags ∧
    (echo_msg_process S f c t raw).1.echo_msg.history = c.echo_msg.history ∧
    (echo_msg_process S f c t raw).1.echo_msg.title = c.echo_msg.title ∧
    (echo_msg_process S f c t raw).1.echo_msg.fp = c.echo_msg.fp ∧
    surface_calls (echo_msg_process S f c t raw).2 = [] := by
  rw [process_append_directive S f c t raw d hdec]
  have h := append_frame S f c t d.fragment d.addLineBreak
  exact ⟨h.1, h.2.2.2.1, h.2.2.1, h.2.1, h.2.2.2.2⟩

theorem append_changes_text_only_witness :
    (echo_msg_process (asciiSys 1 7) lucky
        ⟨16, ⟨⟨3, 77⟩, some (L "T"), some (L "Partial"), 7, [⟨3, 77⟩]⟩⟩ 1000
        "msg-n rest".toList).1 =
      ⟨16, ⟨⟨3, 77⟩, some (L "T"), some (L "Partialrest"), 11, [⟨3, 77⟩]⟩⟩ ∧
    (echo_msg_process (asciiSys 1 7) lucky
        ⟨16, ⟨⟨3, 77⟩, some (L "T"), some (L "Partial"), 7, [⟨3, 77⟩]⟩⟩ 1000
        "msg-n rest".toList).1.echo_msg.history = [⟨3, 77⟩] :=
  ⟨by decide,
   (append_changes_text_only (asciiSys 1 7) lucky
      ⟨16, ⟨⟨3, 77⟩, some (L "T"), some (L "Partial"), 7, [⟨3, 77⟩]⟩⟩ 1000
      "msg-n rest".toList (.msg_n "rest".toList) rfl).2.1⟩

theorem recall_nil (d : Digest) : echo_msg_recall d [] = none := rfl

/-- Claim C15 (clear contract). The call `echo_msg_clear(c, false)` empties the pending
text, title and fingerprint and leaves the history list, and the flags, exactly as they
were; `echo_msg_clear(c, true)` empties them as well and leaves the history empty, so that
afterwards `echo_msg_recall` finds no digest and no message is considered repeated. -/
theorem clear_contract (c : connection_t) :
    ((echo_msg_clear c false).echo_msg.text = none ∧
      (echo_msg_clear c false).echo_msg.txtlen = 0 ∧
      (echo_msg_clear c false).echo_msg.title = none ∧
      (echo_msg_clear c false).echo_msg.fp = ⟨0, 0⟩ ∧
      (echo_msg_clear c false).echo_msg.history = c.echo_msg.history ∧
      (echo_msg_clear c false).flags = c.flags) ∧
    ((echo_msg_clear c true).echo_msg.text = none ∧
      (echo_msg_clear c true).echo_msg.txtlen = 0 ∧
      (echo_msg_clear c true).echo_msg.title = none ∧
      (echo_msg_clear c true).echo_msg.fp = ⟨0, 0⟩ ∧
      (echo_msg_clear c true).echo_msg.history = [] ∧
      (echo_msg_clear c true).flags = c.flags) ∧
    (∀ d, echo_msg_recall d (echo_msg_clear c true).echo_msg.history = none) ∧
    (∀ (S : Sys) (m : echo_msg), m.history = (echo_msg_clear c true).echo_msg.history →
      echo_msg_repeated S m = false) := by
  have h : (echo_msg_clear c true).echo_msg.history = [] := by simp [echo_msg_clear]
  refine ⟨?_, ?_, ?_, ?_⟩
  · simp [echo_msg_clear]
  · simp [echo_msg_clear, echo_msg_persist]
  · intro d
    rw [h]
    rfl
  · intro S m hm
    rw [h] at hm
    simp [echo_msg_repeated, hm, echo_msg_recall]

theorem clear_contract_witness :
    echo_msg_repeated (asciiSys 1 7)
      { (echo_msg_clear ⟨0, ⟨⟨5, 1000⟩, some (L "T"), some (L "x"), 1, [⟨5, 1000⟩]⟩⟩
          true).echo_msg with fp := ⟨5, 1001⟩ } = false ∧
    echo_msg_repeated (asciiSys 1 7)
      { (echo_msg_clear ⟨0, ⟨⟨5, 1000⟩, some (L "T"), some (L "x"), 1, [⟨5, 1000⟩]⟩⟩
          false).echo_msg with fp := ⟨5, 1001⟩ } = true :=
  ⟨(clear_contract ⟨0, ⟨⟨5, 1000⟩, some (L "T"), some (L "x"), 1, [⟨5, 1000⟩]⟩⟩).2.2.2
      (asciiSys 1 7) _ rfl,
   by decide⟩

/-- The entry `echo_msg_recall` points to is the first one, in list order, with the digest. -/
theorem first_entry_eq_find (d : Digest) (hist : List echo_msg_fp) :
    first_entry d hist = hist.find? (fun e => decide (e.digest = d)) := by
  induction hist with
  | nil => rfl
  | cons x rest ih =>
    rw [first_entry_cons, List.find?_cons]
    by_cases hx : x.digest = d
    · simp [hx]
    · simp [hx, ih]

/-! ## Administrative disable -/

/-- On a connection with echo messages disabled one call of `echo_msg_process` calls no
surface and leaves the history as it was. -/
theorem process_disabled (S : Sys) (f : Fate) (c : connection_t) (t : Int) (raw : List Char)
    (hdis : c.flags &&& S.FLAG_DISABLE_ECHO_MSG ≠ 0) :
    surface_calls (echo_msg_process S f c t raw).2 = [] ∧
    (echo_msg_process S f c t raw).1.echo_msg.history = c.echo_msg.history := by
  have hm : ∀ title, muted S f c t title := fun title => Or.inl hdis
  unfold echo_msg_process
  cases S.url_decode raw with
  | none => exact ⟨rfl, rfl⟩
  | some msg =>
    simp only
    split_ifs
    · exact ⟨(append_frame ..).2.2.2.2, (append_frame ..).2.2.2.1⟩
    · exact ⟨(append_frame ..).2.2.2.2, (append_frame ..).2.2.2.1⟩
    · exact ⟨(append_frame ..).2.2.2.2, (append_frame ..).2.2.2.1⟩
    · simp only [surface_calls_display, clear_keeps_history, history_display, if_pos (hm _)]
      exact ⟨trivial, trivial⟩
    · simp only [surface_calls_display, clear_keeps_history, history_display, if_pos (hm _)]
      exact ⟨trivial, trivial⟩
    · exact ⟨rfl, rfl⟩

theorem run_disabled (S : Sys) (calls : List Call) :
    ∀ c : connection_t, c.flags &&& S.FLAG_DISABLE_ECHO_MSG ≠ 0 →
      surface_calls (run S c calls).2 = [] ∧
      (run S c calls).1.echo_msg.history = c.echo_msg.history := by
  induction calls with
  | nil => intro c _; exact ⟨rfl, rfl⟩
  | cons x rest ih =>
    intro c hdis
    have h1 := process_disabled S x.fate c x.timestamp x.line hdis
    have hfl := process_flags S x.fate c x.timestamp x.line
    have h2 := ih (echo_msg_process S x.fate c x.timestamp x.line).1 (by rw [hfl]; exact hdis)
    simp only [run, surface_calls_append, h1.1, h2.1, List.append_nil]
    exact ⟨trivial, h2.2.trans h1.2⟩

/-! ## Order of the tests in the dispatcher -/

/-- The dispatcher is the classification by the chain of tests followed by the action of
the kind found. -/
theorem process_eq_dispatch (S : Sys) (f : Fate) (c : connection_t) (t : Int)
    (raw msg : List Char) (hdec : S.url_decode raw = some msg) :
    echo_msg_process S f c t raw = dispatch S f c t msg (classify msg) := by
  unfold echo_msg_process classify
  simp only [hdec]
  split_ifs <;> rfl

/-- A line that fits the pattern of a kind is given that kind by the chain of tests. -/
theorem classify_of_fits (k : DirectiveKind) (msg : List Char) (h : fits k msg = true) :
    classify msg = k := by
  cases k with
  | msg =>
    simp only [fits, decide_eq_true_eq, begins_with] at h
    obtain ⟨r, rfl⟩ := h
    simp [classify, strbegins, toList_msg_sp]
  | msg_bare =>
    simp only [fits, decide_eq_true_eq] at h
    subst h
    simp [classify, strbegins, streq, toList_msg_sp, toList_msg, List.isPrefixOf]
  | msg_n =>
    simp only [fits, decide_eq_true_eq, begins_with] at h
    obtain ⟨r, rfl⟩ := h
    simp [classify, strbegins, streq, toList_msg_sp, toList_msg, toList_msg_n,
      List.isPrefixOf]
  | msg_window =>
    simp only [fits, decide_eq_true_eq, begins_with] at h
    obtain ⟨r, rfl⟩ := h
    simp [classify, strbegins, streq, toList_msg_sp, toList_msg, toList_msg_n,
      toList_msg_window, List.isPrefixOf]
  | msg_notify =>
    simp only [fits, decide_eq_true_eq, begins_with] at h
    obtain ⟨r, rfl⟩ := h
    simp [classify, strbegins, streq, toList_msg_sp, toList_msg, toList_msg_n,
      toList_msg_window, toList_msg_notify, List.isPrefixOf]
  | unknown => simp [fits] at h

/-- The kind the chain of tests gives, when it is a directive, is one whose pattern the line
fits. -/
theorem fits_classify (msg : List Char) (h : classify msg ≠ .unknown) :
    fits (classify msg) msg = true := by
  unfold classify at h ⊢
  split_ifs at h ⊢ with h1 h2 h3 h4 h5
  · simpa [fits, ← strbegins_eq_true_iff] using h1
  · simp only [fits, decide_eq_true_eq]
    exact (streq_eq_true_iff msg "msg").1 h2
  · simpa [fits, ← strbegins_eq_true_iff] using h3
  · simpa [fits, ← strbegins_eq_true_iff] using h4
  · simpa [fits, ← strbegins_eq_true_iff] using h5
  · exact absurd rfl h

/-- Claim C18 (prefix-order independence). The five directive patterns (prefix `msg `,
exactly `msg`, prefix `msg-n `, prefix `msg-window `, prefix `msg-notify `) are mutually
exclusive on every decoded line; so a dispatcher that tries the patterns in any order that
has all five, in particular longest first, gives every line the same kind as the chain of
tests of `echo_msg_process` in the order of the source, which is the kind whose action
`echo_msg_process` takes. -/
theorem prefix_order_independence :
    (∀ (msg : List Char) (k1 k2 : DirectiveKind),
      fits k1 msg = true → fits k2 msg = true → k1 = k2) ∧
    (∀ (order : List DirectiveKind) (msg : List Char),
      (∀ k, k ≠ DirectiveKind.unknown → k ∈ order) → classify_by order msg = classify msg) ∧
    (∀ msg : List Char, classify_by longest_first msg = classify msg ∧
      classify_by source_order msg = classify msg) ∧
    (∀ (S : Sys) (f : Fate) (c : connection_t) (t : Int) (raw msg : List Char),
      S.url_decode raw = some msg →
      echo_msg_process S f c t raw = dispatch S f c t msg (classify_by longest_first msg)) := by
  have hex : ∀ (msg : List Char) (k1 k2 : DirectiveKind),
      fits k1 msg = true → fits k2 msg = true → k1 = k2 := by
    intro msg k1 k2 h1 h2
    rw [← classify_of_fits k1 msg h1, ← classify_of_fits k2 msg h2]
  have hord : ∀ (order : List DirectiveKind) (msg : List Char),
      (∀ k, k ≠ DirectiveKind.unknown → k ∈ order) → classify_by order msg = classify msg := by
    intro order msg hall
    unfold classify_by
    cases hf : order.find? (fun k => fits k msg) with
    | none =>
      by_cases hk : classify msg = .unknown
      · rw [hk]; rfl
      · have hmem := hall _ hk
        have := List.find?_eq_none.1 hf _ hmem
        exact absurd (fits_classify msg hk) this
    | some k =>
      have hk := List.find?_some hf
      simp only [Option.getD_some]
      exact (classify_of_fits k msg hk).symm
  have hlong : ∀ msg : List Char, classify_by longest_first msg = classify msg := fun msg =>
    hord longest_first msg (by intro k hk; cases k <;> simp [longest_first] at hk ⊢)
  refine ⟨hex, hord, fun msg => ⟨hlong msg, ?_⟩, ?_⟩
  · exact hord source_order msg (by intro k hk; cases k <;> simp [source_order] at hk ⊢)
  · intro S f c t raw msg hdec
    rw [hlong, process_eq_dispatch S f c t raw msg hdec]

theorem prefix_order_independence_witness :
    classify_by longest_first "msg-n Partial".toList = DirectiveKind.msg_n ∧
    classify "msg-n Partial".toList = DirectiveKind.msg_n ∧
    echo_msg_process (asciiSys 1 7) lucky fresh 1000 "msg-notify T".toList =
      dispatch (asciiSys 1 7) lucky fresh 1000 "msg-notify T".toList
        (classify_by longest_first "msg-notify T".toList) ∧
    DirectiveKind.msg_n = classify "msg-n Partial".toList :=
  ⟨by decide, by decide,
   prefix_order_independence.2.2.2 (asciiSys 1 7) lucky fresh 1000 "msg-notify T".toList
     "msg-notify T".toList rfl,
   prefix_order_independence.1 "msg-n Partial".toList _ _ (by decide)
     (fits_classify "msg-n Partial".toList (by decide))⟩

/-- A finalize directive frees a string literal exactly when its title cannot be widened. -/
theorem frees_literal_finalize (S : Sys) (raw : List Char) (sf : Surface) (title : List Char)
    (hdec : S.url_decode raw = some (sf.line title)) :
    frees_literal S raw = (S.Widen title).isNone := by
  cases sf with
  | window =>
    simp [frees_literal, hdec, Surface.line, Surface.keyword, strbegins, streq,
      toList_msg_sp, toList_msg, toList_msg_n, toList_msg_window, List.isPrefixOf]
  | notify =>
    simp [frees_literal, hdec, Surface.line, Surface.keyword, strbegins, streq,
      toList_msg_sp, toList_msg, toList_msg_n, toList_msg_window, toList_msg_notify,
      List.isPrefixOf]

/-- The reset after a finalize directive whose title is widened: every pointer freed is null
or a heap block, the pending message is empty afterwards, and the next body is made of the
later fragments only. -/
theorem reset_after_finalize (S : Sys) (f : Fate) (c : connection_t) (t : Int) (raw : List Char)
    (sf : Surface) (title : List Char) (wt : List WCHAR)
    (hdec : S.url_decode raw = some (sf.line title)) (hw : S.Widen title = some wt) :
    frees_literal S raw = false ∧
    (echo_msg_process S f c t raw).1.echo_msg.text = none ∧
    (echo_msg_process S f c t raw).1.echo_msg.txtlen = 0 ∧
    (echo_msg_process S f c t raw).1.echo_msg.title = none ∧
    (echo_msg_process S f c t raw).1.echo_msg.fp = ⟨0, 0⟩ ∧
    ∀ calls : List AppendCall, (∀ a ∈ calls, a.succeeds S) →
      body (run S (echo_msg_process S f c t raw).1 (calls.map AppendCall.call)).1 =
        concat_pieces calls := by
  refine ⟨by rw [frees_literal_finalize S raw sf title hdec, hw]; rfl, ?_⟩
  rw [process_finalize_eq S f c t raw sf title hdec]
  have key : ∀ (hist : List echo_msg_fp) (calls : List AppendCall),
      (∀ a ∈ calls, a.succeeds S) →
      body (run S ⟨c.flags, ⟨⟨0, 0⟩, none, none, 0, hist⟩⟩ (calls.map AppendCall.call)).1 =
        concat_pieces calls := by
    intro hist calls hok
    rw [run_appends S calls ⟨c.flags, ⟨⟨0, 0⟩, none, none, 0, hist⟩⟩ hok
      (by unfold text_wf; rfl)]
    cases calls with
    | nil => simp [body, concat_pieces]
    | cons a rest => simp [body]
  split
  · exact ⟨rfl, rfl, rfl, rfl, key _⟩
  · exact ⟨rfl, rfl, rfl, rfl, key _⟩

/-- Claim C5, the failing input. The line `msg-window Alert` with `Widen` failing on the
title: `echo_msg_display` leaves the characters of the string literal
`L"Message from server"` as title, the message is shown with that title, and
`echo_msg_process` hands this state to `echo_msg_clear`, whose `free(c->echo_msg.title)`
then receives the literal (`frees_literal`): the call has no defined outcome, and the reset
the claim describes is not reached by defined behaviour. -/
theorem finalize_frees_literal_title :
    (titleFailSys 1 7).Widen "Alert".toList = none ∧
    (echo_msg_display (titleFailSys 1 7) lucky
        (run (titleFailSys 1 7) fresh [⟨lucky, 1000, "msg Hello".toList⟩]).1
        1000 "Alert".toList ECHO_MSG_WINDOW).1.echo_msg.title =
      some (L "Message from server") ∧
    (echo_msg_display (titleFailSys 1 7) lucky
        (run (titleFailSys 1 7) fresh [⟨lucky, 1000, "msg Hello".toList⟩]).1
        1000 "Alert".toList ECHO_MSG_WINDOW).2 =
      [Event.WriteStatusLog "GUI> "
          "Error: out of memory converting echo message title to widechar" none,
        Event.AddMessageBoxText 7 (some (L "Hello\r\n")) (some (L "Message from server"))] ∧
    echo_msg_process (titleFailSys 1 7) lucky
        (run (titleFailSys 1 7) fresh [⟨lucky, 1000, "msg Hello".toList⟩]).1
        1000 "msg-window Alert".toList =
      (echo_msg_clear (echo_msg_display (titleFailSys 1 7) lucky
          (run (titleFailSys 1 7) fresh [⟨lucky, 1000, "msg Hello".toList⟩]).1
          1000 "Alert".toList ECHO_MSG_WINDOW).1 false,
        (echo_msg_display (titleFailSys 1 7) lucky
          (run (titleFailSys 1 7) fresh [⟨lucky, 1000, "msg Hello".toList⟩]).1
          1000 "Alert".toList ECHO_MSG_WINDOW).2) ∧
    frees_literal (titleFailSys 1 7) "msg-window Alert".toList = true ∧
    defined_outcome (titleFailSys 1 7) lucky
        (run (titleFailSys 1 7) fresh [⟨lucky, 1000, "msg Hello".toList⟩]).1
        1000 "msg-window Alert".toList = none := by
  refine ⟨by decide, rfl, rfl, ?_, by decide, ?_⟩
  · exact process_finalize _ _ _ _ _ Surface.window _ rfl
  · unfold defined_outcome
    rw [if_pos (by decide)]

/-- Claim C17, the failing input. On a connection with the disable flag set, the line
`msg-window Alert` with `Widen` failing on the title: no surface is called and the history
is not touched, but `echo_msg_display` has stored the string literal as title before its
test of the flag, and the reset in `echo_msg_process` passes it to `free`
(`frees_literal`): the call has no defined outcome, and the reset the claim describes is
not reached by defined behaviour. -/
theorem disabled_finalize_frees_literal_title :
    (⟨16, ⟨⟨0, 0⟩, none, some (L "Hello\r\n"), 7, [⟨5, 10⟩]⟩⟩ : connection_t).flags &&&
        (titleFailSys 1 7).FLAG_DISABLE_ECHO_MSG ≠ 0 ∧
    (echo_msg_display (titleFailSys 1 7) lucky
        ⟨16, ⟨⟨0, 0⟩, none, some (L "Hello\r\n"), 7, [⟨5, 10⟩]⟩⟩
        1000 "Alert".toList ECHO_MSG_WINDOW).1.echo_msg.title =
      some (L "Message from server") ∧
    surface_calls (echo_msg_display (titleFailSys 1 7) lucky
        ⟨16, ⟨⟨0, 0⟩, none, some (L "Hello\r\n"), 7, [⟨5, 10⟩]⟩⟩
        1000 "Alert".toList ECHO_MSG_WINDOW).2 = [] ∧
    (echo_msg_display (titleFailSys 1 7) lucky
        ⟨16, ⟨⟨0, 0⟩, none, some (L "Hello\r\n"), 7, [⟨5, 10⟩]⟩⟩
        1000 "Alert".toList ECHO_MSG_WINDOW).1.echo_msg.history = [⟨5, 10⟩] ∧
    echo_msg_process (titleFailSys 1 7) lucky
        ⟨16, ⟨⟨0, 0⟩, none, some (L "Hello\r\n"), 7, [⟨5, 10⟩]⟩⟩
        1000 "msg-window Alert".toList =
      (echo_msg_clear (echo_msg_display (titleFailSys 1 7) lucky
          ⟨16, ⟨⟨0, 0⟩, none, some (L "Hello\r\n"), 7, [⟨5, 10⟩]⟩⟩
          1000 "Alert".toList ECHO_MSG_WINDOW).1 false,
        (echo_msg_display (titleFailSys 1 7) lucky
          ⟨16, ⟨⟨0, 0⟩, none, some (L "Hello\r\n"), 7, [⟨5, 10⟩]⟩⟩
          1000 "Alert".toList ECHO_MSG_WINDOW).2) ∧
    frees_literal (titleFailSys 1 7) "msg-window Alert".toList = true ∧
    defined_outcome (titleFailSys 1 7) lucky
        ⟨16, ⟨⟨0, 0⟩, none, some (L "Hello\r\n"), 7, [⟨5, 10⟩]⟩⟩
        1000 "msg-window Alert".toList = none := by
  refine ⟨by decide, rfl, rfl, rfl, ?_, by decide, ?_⟩
  · exact process_finalize _ _ _ _ _ Surface.window _ rfl
  · unfold defined_outcome
    rw [if_pos (by decide)]

/-- On a connection with the disable flag set, for every sequence of directives: no surface
is called, the history is what it was, and a finalize directive whose title is widened
frees no literal and resets the pending message. -/
theorem disabled_run (S : Sys) (c : connection_t) (calls : List Call)
    (hdis : c.flags &&& S.FLAG_DISABLE_ECHO_MSG ≠ 0) :
    surface_calls (run S c calls).2 = [] ∧
    (run S c calls).1.echo_msg.history = c.echo_msg.history ∧
    ∀ (f : Fate) (t : Int) (raw : List Char) (sf : Surface) (title : List Char)
      (wt : List WCHAR),
      S.url_decode raw = some (sf.line title) → S.Widen title = some wt →
      frees_literal S raw = false ∧
      (echo_msg_process S f (run S c calls).1 t raw).1 =
        ⟨c.flags, ⟨⟨0, 0⟩, none, none, 0, c.echo_msg.history⟩⟩ ∧
      surface_calls (echo_msg_process S f (run S c calls).1 t raw).2 = [] := by
  have hr := run_disabled S calls c hdis
  have hfl := run_flags S calls c
  refine ⟨hr.1, hr.2, ?_⟩
  intro f t raw sf title wt hdec hw
  have hm : muted S f (run S c calls).1 t title := Or.inl (by rw [hfl]; exact hdis)
  rw [process_finalize_eq S f _ t raw sf title hdec, if_pos hm, hfl, hr.2]
  exact ⟨by rw [frees_literal_finalize S raw sf title hdec, hw]; rfl, rfl,
    surface_calls_title_log S title⟩

/-- Counterexample to claim C9 as stated: the same pending message (text `Hello` CR LF,
title `Alert`) is given to `echo_msg_add_fp` twice; `md_init` succeeds in the first call and
fails in the second, where the function returns with the digest the message had before:
the two digests differ. -/
theorem digest_kept_when_md_init_fails :
    (echo_msg_add_fp (asciiSys 1 7) lucky
        ⟨⟨0, 0⟩, some (L "Alert"), some (L "Hello\r\n"), 7, []⟩ 1000).fp.digest ≠
      (echo_msg_add_fp (asciiSys 1 7) ⟨false, true, true⟩
        ⟨⟨0, 0⟩, some (L "Alert"), some (L "Hello\r\n"), 7, []⟩ 1000).fp.digest ∧
    (echo_msg_add_fp (asciiSys 1 7) ⟨false, true, true⟩
        ⟨⟨0, 0⟩, some (L "Alert"), some (L "Hello\r\n"), 7, []⟩ 1000).fp = ⟨0, 1000⟩ := by
  decide

/-- Counterexample to claim C12 as stated: the digest 7 is not in the history and the node
for it cannot be allocated; after `echo_msg_save` the history is the old list, the
fingerprint is not at its head and `echo_msg_recall` still finds no entry for the digest. -/
theorem save_without_node :
    echo_msg_recall 7 [⟨6, 20⟩, ⟨5, 10⟩] = none ∧
    (echo_msg_save ⟨true, true, false⟩ ⟨⟨7, 30⟩, none, none, 0, [⟨6, 20⟩, ⟨5, 10⟩]⟩).history =
      [⟨6, 20⟩, ⟨5, 10⟩] ∧
    (echo_msg_save ⟨true, true, false⟩ ⟨⟨7, 30⟩, none, none, 0, [⟨6, 20⟩, ⟨5, 10⟩]⟩).history ≠
      ⟨7, 30⟩ :: [⟨6, 20⟩, ⟨5, 10⟩] ∧
    echo_msg_recall 7
      (echo_msg_save ⟨true, true, false⟩
        ⟨⟨7, 30⟩, none, none, 0, [⟨6, 20⟩, ⟨5, 10⟩]⟩).history = none := by
  decide

/-- Counterexample to claim C16 as stated. (1) With a mute interval of 1193047 hours the
history holds the digest of the message with timestamp 1000 and
`1000 + 1193047*3600 > 3000`, yet `echo_msg_repeated` returns false: the 32-bit product is
1904. (2) With an interval of one hour, the entry has timestamp `2^63 - 1` and the message
timestamp 0: the entry's timestamp plus 3600 exceeds 0, yet `echo_msg_repeated` returns
false: the 64-bit sum is negative. -/
theorem mute_test_wraps_around :
    ((([⟨5, 1000⟩] : List echo_msg_fp).find? (fun e => decide (e.digest = 5)) = some ⟨5, 1000⟩ ∧
        (1000 : Int) + ((asciiSys 1193047 7).popup_mute_interval : Int) * 3600 > 3000) ∧
      mute_seconds (asciiSys 1193047 7) = 1904 ∧
      echo_msg_repeated (asciiSys 1193047 7) ⟨⟨5, 3000⟩, none, none, 0, [⟨5, 1000⟩]⟩ = false) ∧
    ((2 : Int) ^ 63 - 1 + ((asciiSys 1 7).popup_mute_interval : Int) * 3600 > 0 ∧
      wrap_time (2 ^ 63 - 1 + (mute_seconds (asciiSys 1 7) : Int)) < 0 ∧
      echo_msg_repeated (asciiSys 1 7) ⟨⟨5, 0⟩, none, none, 0, [⟨5, 2 ^ 63 - 1⟩]⟩ = false) := by
  refine ⟨⟨⟨by decide, by decide⟩, by decide, by decide⟩, by decide, by decide, by decide⟩

/-- Claim C16 (mute test), amended. For every pending message and history,
`echo_msg_repeated` returns true if and only if the history has an entry with the digest of
the message and the first such entry satisfies
`entry.timestamp + muteIntervalHours*3600 > fp.timestamp`, the product taken in unsigned 32
bits and the sum in signed 64 bits; this is the comparison of the exact sum whenever
`muteIntervalHours*3600 < 2^32` and, for the timestamps of the history, the exact sum is below
`2^63` (timestamps being at least `-2^63`). In particular a message whose digest is absent
from the history is never reported as repeated. -/
theorem mute_test (S : Sys) (msg : echo_msg) :
    (echo_msg_repeated S msg = true ↔
      ∃ e, msg.history.find? (fun e => decide (e.digest = msg.fp.digest)) = some e ∧
        wrap_time (e.timestamp + (mute_seconds S : Int)) > msg.fp.timestamp) ∧
    (S.popup_mute_interval * 3600 < 2 ^ 32 →
      (∀ e ∈ msg.history, -2 ^ 63 ≤ e.timestamp ∧
        e.timestamp + (S.popup_mute_interval : Int) * 3600 < 2 ^ 63) →
      (echo_msg_repeated S msg = true ↔
        ∃ e, msg.history.find? (fun e => decide (e.digest = msg.fp.digest)) = some e ∧
          e.timestamp + (S.popup_mute_interval : Int) * 3600 > msg.fp.timestamp)) ∧
    ((∀ e ∈ msg.history, e.digest ≠ msg.fp.digest) → echo_msg_repeated S msg = false) := by
  have h := repeated_iff S msg
  rw [first_entry_eq_find] at h
  refine ⟨h, ?_, ?_⟩
  · intro hprod hrange
    rw [h]
    constructor
    · rintro ⟨e, he, hlt⟩
      have hmem := List.mem_of_find?_eq_some he
      rw [mute_deadline_eq S e.timestamp hprod (hrange e hmem).1 (hrange e hmem).2] at hlt
      exact ⟨e, he, hlt⟩
    · rintro ⟨e, he, hlt⟩
      have hmem := List.mem_of_find?_eq_some he
      refine ⟨e, he, ?_⟩
      rw [mute_deadline_eq S e.timestamp hprod (hrange e hmem).1 (hrange e hmem).2]
      exact hlt
  · intro habs
    have hn : msg.history.find? (fun e => decide (e.digest = msg.fp.digest)) = none := by
      rw [← first_entry_eq_find]
      exact (first_entry_eq_none_iff _ _).2 habs
    cases hr : echo_msg_repeated S msg with
    | false => rfl
    | true =>
      obtain ⟨e, he, _⟩ := h.1 hr
      rw [hn] at he
      cases he

theorem mute_test_witness :
    echo_msg_repeated (asciiSys 1 7) ⟨⟨7, 1500⟩, none, none, 0, [⟨6, 20⟩, ⟨5, 10⟩]⟩ = false ∧
    (echo_msg_repeated (asciiSys 1 7) ⟨⟨5, 3609⟩, none, none, 0, [⟨6, 20⟩, ⟨5, 10⟩]⟩ = true ↔
      ∃ e, ([⟨6, 20⟩, ⟨5, 10⟩] : List echo_msg_fp).find? (fun e => decide (e.digest = 5)) =
          some e ∧ e.timestamp + (1 : Int) * 3600 > 3609) ∧
    echo_msg_repeated (asciiSys 1 7) ⟨⟨5, 3609⟩, none, none, 0, [⟨6, 20⟩, ⟨5, 10⟩]⟩ = true ∧
    echo_msg_repeated (asciiSys 1 7) ⟨⟨5, 3610⟩, none, none, 0, [⟨6, 20⟩, ⟨5, 10⟩]⟩ = false :=
  ⟨(mute_test (asciiSys 1 7) ⟨⟨7, 1500⟩, none, none, 0, [⟨6, 20⟩, ⟨5, 10⟩]⟩).2.2 (by decide),
   (mute_test (asciiSys 1 7) ⟨⟨5, 3609⟩, none, none, 0, [⟨6, 20⟩, ⟨5, 10⟩]⟩).2.1 (by decide)
     (by decide),
   by decide, by decide⟩

/-- Counterexample to claim C11 as stated: `md_init` fails during `msg-window Alert` on a
connection with echo messages enabled and an empty history, so the zero digest is not found
repeated; the message window does not exist, and the message is not presented: no surface
call is made (the fingerprint with the zero digest is saved all the same). -/
theorem digest_failure_not_presented :
    (run (asciiSys 1 0) fresh [⟨lucky, 1000, "msg Hello".toList⟩]).1.flags &&&
        (asciiSys 1 0).FLAG_DISABLE_ECHO_MSG = 0 ∧
    (finalized (asciiSys 1 0) ⟨false, true, true⟩
        (run (asciiSys 1 0) fresh [⟨lucky, 1000, "msg Hello".toList⟩]).1
        1000 "Alert".toList).fp = ⟨0, 1000⟩ ∧
    echo_msg_repeated (asciiSys 1 0)
        (finalized (asciiSys 1 0) ⟨false, true, true⟩
          (run (asciiSys 1 0) fresh [⟨lucky, 1000, "msg Hello".toList⟩]).1
          1000 "Alert".toList) = false ∧
    surface_calls (echo_msg_process (asciiSys 1 0) ⟨false, true, true⟩
        (run (asciiSys 1 0) fresh [⟨lucky, 1000, "msg Hello".toList⟩]).1
        1000 "msg-window Alert".toList).2 = [] ∧
    (echo_msg_process (asciiSys 1 0) ⟨false, true, true⟩
        (run (asciiSys 1 0) fresh [⟨lucky, 1000, "msg Hello".toList⟩]).1
        1000 "msg-window Alert".toList).1.echo_msg.history = [⟨0, 1000⟩] := by
  decide

/-- Claim C11 (digest-engine failure), amended. Starting from a connection whose pending
fingerprint is unset, after any sequence of directives: if `md_init` fails during a finalize
directive, the fingerprint used for the mute check and for the history is the all-zero
digest with the timestamp of the directive; the message is muted exactly when echo messages
are disabled or `echo_msg_repeated` holds for that fingerprint on the history; otherwise the
display path proceeds: its events are the log line for a title that could not be widened,
if any, and the presentation, the fingerprint with the zero digest goes to `echo_msg_save`,
and the message is presented by the one call to the surface of the directive, except that
for `msg-window` with no message window no surface call is made. -/
theorem digest_engine_failure (S : Sys) (c0 : connection_t) (calls : List Call) (f : Fate)
    (t : Int) (raw : List Char) (sf : Surface) (title : List Char)
    (h0 : c0.echo_msg.fp = ⟨0, 0⟩)
    (hdec : S.url_decode raw = some (sf.line title))
    (hmd : f.md_init_ok = false) :
    (finalized S f (run S c0 calls).1 t title).fp = ⟨0, t⟩ ∧
    (muted S f (run S c0 calls).1 t title ↔
      ((run S c0 calls).1.flags &&& S.FLAG_DISABLE_ECHO_MSG ≠ 0 ∨
        echo_msg_repeated S ⟨⟨0, t⟩, some (wide_title S title),
          (run S c0 calls).1.echo_msg.text, (run S c0 calls).1.echo_msg.txtlen,
          (run S c0 calls).1.echo_msg.history⟩ = true)) ∧
    (¬ muted S f (run S c0 calls).1 t title →
      (echo_msg_display S f (run S c0 calls).1 t title sf.type).2 =
          title_log S title ++ presented S (run S c0 calls).1 title sf.type ∧
      (echo_msg_display S f (run S c0 calls).1 t title sf.type).1.echo_msg.history =
          (echo_msg_save f ⟨⟨0, t⟩, some (wide_title S title), (run S c0 calls).1.echo_msg.text,
            (run S c0 calls).1.echo_msg.txtlen, (run S c0 calls).1.echo_msg.history⟩).history ∧
      ((sf = Surface.window → S.echo_msg_window ≠ 0) →
        surface_calls (echo_msg_process S f (run S c0 calls).1 t raw).2 =
          [sf.call S (wide_title S title) (run S c0 calls).1.echo_msg.text]) ∧
      (sf = Surface.window → S.echo_msg_window = 0 →
        surface_calls (echo_msg_process S f (run S c0 calls).1 t raw).2 = [])) := by
  have hu := run_fp_unset S calls c0 h0
  generalize (run S c0 calls).1 = c at hu ⊢
  have hfp : (finalized S f c t title).fp = ⟨0, t⟩ := by
    rw [finalized_fp_failed S f c t title hmd, hu]
  have hfr := finalized_frame S f c t title
  have hfin : finalized S f c t title =
      ⟨⟨0, t⟩, some (wide_title S title), c.echo_msg.text, c.echo_msg.txtlen,
        c.echo_msg.history⟩ := by
    cases hm : finalized S f c t title with
    | mk fp ti te tl hi =>
      rw [hm] at hfp hfr
      simp only at hfp hfr
      obtain ⟨h1, h2, h3, h4, _⟩ := hfr
      rw [hfp, h1, h2, h3, h4]
  refine ⟨hfp, ?_, ?_⟩
  · unfold muted
    rw [hfin]
  · intro hnm
    rw [display_eq, if_neg hnm, process_finalize_eq S f c t raw sf title hdec, if_neg hnm, hfin]
    refine ⟨rfl, rfl, ?_, ?_⟩
    · intro hwin
      simp only [surface_calls_append, surface_calls_title_log, surface_calls_presented,
        List.nil_append]
      exact presented_eq S c title sf hwin
    · intro hsf hwin
      subst hsf
      simp only [surface_calls_append, surface_calls_title_log, surface_calls_presented,
        List.nil_append]
      exact presented_window_null S c title hwin

theorem digest_engine_failure_witness :
    (finalized (asciiSys 1 7) ⟨false, true, true⟩
        (run (asciiSys 1 7) fresh [⟨lucky, 1000, "msg Hello".toList⟩]).1 1000
        "Alert".toList).fp = ⟨0, 1000⟩ ∧
    surface_calls (echo_msg_process (asciiSys 1 7) ⟨false, true, true⟩
        (run (asciiSys 1 7) fresh [⟨lucky, 1000, "msg Hello".toList⟩]).1 1000
        "msg-window Alert".toList).2 =
      [Event.AddMessageBoxText 7 (some (L "Hello\r\n")) (some (L "Alert"))] ∧
    (echo_msg_display (asciiSys 1 7) ⟨false, true, true⟩
        (run (asciiSys 1 7) fresh [⟨lucky, 1000, "msg Hello".toList⟩]).1 1000
        "Alert".toList Surface.window.type).1.echo_msg.history = [⟨0, 1000⟩] :=
  ⟨(digest_engine_failure (asciiSys 1 7) fresh [⟨lucky, 1000, "msg Hello".toList⟩]
      ⟨false, true, true⟩ 1000 "msg-window Alert".toList Surface.window "Alert".toList
      rfl rfl rfl).1,
   ((digest_engine_failure (asciiSys 1 7) fresh [⟨lucky, 1000, "msg Hello".toList⟩]
      ⟨false, true, true⟩ 1000 "msg-window Alert".toList Surface.window "Alert".toList
      rfl rfl rfl).2.2 (by decide)).2.2.1 (by decide),
   ((digest_engine_failure (asciiSys 1 7) fresh [⟨lucky, 1000, "msg Hello".toList⟩]
      ⟨false, true, true⟩ 1000 "msg-window Alert".toList Surface.window "Alert".toList
      rfl rfl rfl).2.2 (by decide)).2.1⟩

end EchoMsg
